import Mathlib

/-
Verification development for the sandboxed plugin runtime
(src-tauri/src/plugin of the ApexBridgeUI repository).

Rust strings are embedded as lists of characters (`Str`); the source is
ASCII throughout the code paths modelled here, so character positions and
byte positions coincide.  Hash maps are embedded as association lists
(first binding wins), hash sets as lists.  Disk, clock and network effects
are abstracted into explicit world records passed to the functions that
use them; all functions are otherwise direct translations of the Rust
source, keeping the source names.
-/

/-- Rust `String` / `&str`, embedded as a list of characters. -/
abbrev Str := List Char

namespace StrOps

/-- Rust byte-lexicographic `<` on strings (`&str` Ord), on characters. -/
def lexLt : Str → Str → Bool
  | [], [] => false
  | [], _ :: _ => true
  | _ :: _, [] => false
  | a :: as, b :: bs => if a < b then true else if b < a then false else lexLt as bs

/-- Rust `s.splitn(2, c)`: the part before the first separator, and
(optionally) the remainder after it. -/
def splitFirst (c : Char) : Str → Str × Option Str
  | [] => ([], none)
  | x :: xs =>
    if x = c then ([], some xs)
    else
      let r := splitFirst c xs
      (x :: r.1, r.2)

/-- Rust `s.split(c)` (yields at least one part, empty parts kept). -/
def splitAll (c : Char) : Str → List Str
  | [] => [[]]
  | x :: xs =>
    if x = c then [] :: splitAll c xs
    else
      match splitAll c xs with
      | [] => [[x]]
      | p :: ps => (x :: p) :: ps

/-- Rust `u32::from_str` (`"123".parse::<u32>()`): optional leading plus,
then one or more ASCII digits, value bounded by the u32 range. -/
def parseU32 (s : Str) : Option Nat :=
  let t := match s with
    | '+' :: rest => rest
    | other => other
  if t = [] then none
  else if t.all Char.isDigit then
    let v := t.foldl (fun a c => a * 10 + (c.toNat - 48)) 0
    if v < 4294967296 then some v else none
  else none

end StrOps

/-- The plugin lifecycle state machine (src plugin/mod.rs `PluginState`). -/
inductive PluginState
  | Uninstalled
  | Installed
  | Loaded
  | Activated
  | Running
  | Deactivated
deriving DecidableEq, Repr

namespace PluginState

/-- `PluginState::can_transition_to` from src plugin/mod.rs. -/
def can_transition_to (s target : PluginState) : Bool :=
  match s, target with
  | Uninstalled, Installed => true
  | Installed, Loaded => true
  | Loaded, Activated => true
  | Activated, Running => true
  | Running, Deactivated => true
  | Deactivated, Installed => true
  | Installed, Uninstalled => true
  | Deactivated, Uninstalled => true
  | Deactivated, Activated => true
  | _, _ => false

end PluginState

/-- Plugin system errors (src plugin/mod.rs `PluginError`); payloads that
are formatted messages in the source are carried as strings. -/
inductive PluginError
  | notFound (id : Str)
  | invalidStateTransition (from_ : PluginState) (to_ : PluginState)
  | manifestError (msg : Str)
  | manifestValidation (msg : Str)
  | permissionDenied (msg : Str)
  | dependencyError (msg : Str)
  | dependencyResolution (msg : Str)
  | activationError (msg : Str)
  | ioError (msg : Str)
  | zipError (msg : Str)
  | hookError (msg : Str)
  | fileSystemError (msg : Str)
deriving DecidableEq, Repr

/-- Permission types (src plugin/permission_manager.rs `PermissionType`). -/
inductive PermissionType
  | FilesystemRead
  | FilesystemWrite
  | NetworkRequest
  | StorageRead
  | StorageWrite
  | SystemNotify
  | UiRegisterCommand
  | UiRegisterView
deriving DecidableEq, Repr

namespace PermissionType

/-- `PermissionType::from_str` from src plugin/permission_manager.rs. -/
def from_str (s : Str) : Option PermissionType :=
  if s = "filesystem.read".toList then some FilesystemRead
  else if s = "filesystem.write".toList then some FilesystemWrite
  else if s = "network.request".toList then some NetworkRequest
  else if s = "storage.read".toList then some StorageRead
  else if s = "storage.write".toList then some StorageWrite
  else if s = "system.notify".toList then some SystemNotify
  else if s = "ui.registerCommand".toList then some UiRegisterCommand
  else if s = "ui.registerView".toList then some UiRegisterView
  else none

end PermissionType

/-- A granted or pending permission record
(src plugin/permission_manager.rs `PluginPermission`); the metadata fields
(`granted_at`, `granted_by`, `expires_at`) play no role in validation and
are kept as optional strings. -/
structure PluginPermission where
  plugin_id : Str
  permission_type : PermissionType
  resource_scope : Str
  granted : Bool
  granted_at : Option Str := none
  granted_by : Option Str := none
  expires_at : Option Str := none
deriving DecidableEq, Repr

/-- One audit record as assembled by
`AuditLogger::log_permission_check` (src plugin/audit_logger.rs);
the timestamp is the caller-supplied clock value. -/
structure AuditLogEntry where
  timestamp : Str
  plugin_id : Str
  permission_type : PermissionType
  resource : Str
  action : Str
  result : Bool
  error_message : Option Str
deriving DecidableEq, Repr

/-- The permission store: plugin id to permission records, embedding the
`permissions: HashMap<PluginId, Vec<PluginPermission>>` field of
`PermissionManager` as an association list (first binding wins). -/
abbrev Permissions := List (Str × List PluginPermission)

/-- `self.permissions.get(plugin_id)` (association-list lookup). -/
def Permissions.get (ps : Permissions) (plugin_id : Str) : Option (List PluginPermission) :=
  (ps.find? (fun p => p.1 = plugin_id)).map (fun p => p.2)

namespace PermissionManager

/-- `PermissionManager::matches_scope` (src plugin/permission_manager.rs):
normalize separators, then trailing `/*` means prefix match, otherwise the
relative path must equal the scope. -/
def matches_scope (path scope : Str) : Bool :=
  let normalized_path := path.map (fun ch => if ch = '\\' then '/' else ch)
  if "/*".toList.isSuffixOf scope then
    let pre := scope.take (scope.length - 2)
    pre.isPrefixOf normalized_path
  else
    normalized_path = scope

/-- `PermissionManager::matches_domain` (src plugin/permission_manager.rs):
a `*.suffix` pattern matches the bare suffix or any host ending in the
suffix with a dot immediately before it; otherwise exact equality. -/
def matches_domain (domain pattern : Str) : Bool :=
  if "*.".toList.isPrefixOf pattern then
    let suffix := pattern.drop 2
    if domain = suffix then true
    else if suffix.isSuffixOf domain then
      let pre_len := domain.length - suffix.length
      domain.get? (pre_len - 1) = some '.'
    else false
  else
    domain = pattern

/-- `PermissionManager::has_permission` (src plugin/permission_manager.rs):
parse `type[:scope]`, then search the records of the plugin for one of the
same type, granted, whose scope is `*` or matches via `matches_scope`. -/
def has_permission (ps : Permissions) (plugin_id : Str) (permission_str : Str) : Bool :=
  let parts := StrOps.splitFirst ':' permission_str
  let permission_type_str := parts.1
  let resource_scope := parts.2.getD "*".toList
  match PermissionType.from_str permission_type_str with
  | some permission_type =>
    match ps.get plugin_id with
    | some permissions =>
      permissions.any (fun p =>
        p.permission_type = permission_type && p.granted &&
          (p.resource_scope = "*".toList || matches_scope resource_scope p.resource_scope))
    | none => false
  | none => false

/-- `PermissionManager::log_validation`: the audit entry that a validation
emits (src plugin/permission_manager.rs); `now` is the clock reading. -/
def log_validation (now plugin_id : Str) (permission_type : PermissionType)
    (resource : Str) (result : Bool) (error : Option Str) : AuditLogEntry :=
  { timestamp := now, plugin_id := plugin_id, permission_type := permission_type,
    resource := resource, action := "validate".toList, result := result,
    error_message := error }

/-- `PermissionManager::validate_network_permission`
(src plugin/permission_manager.rs), returning the decision together with
the audit entry it logs. -/
def validate_network_permission (now : Str) (ps : Permissions)
    (plugin_id domain : Str) : Bool × AuditLogEntry :=
  let pt := PermissionType.NetworkRequest
  match ps.get plugin_id with
  | none =>
    (false, log_validation now plugin_id pt domain false (some "No permissions found".toList))
  | some permissions =>
    if permissions.any (fun perm =>
        perm.permission_type = pt && perm.granted &&
          (perm.resource_scope = "*".toList || matches_domain domain perm.resource_scope)) then
      (true, log_validation now plugin_id pt domain true none)
    else
      (false, log_validation now plugin_id pt domain false (some "No matching permission".toList))

end PermissionManager

/-- Plugin metadata (src plugin/mod.rs `PluginMetadata`); `install_path`
is kept as a string. -/
structure PluginMetadata where
  id : Str
  name : Str
  display_name : Str
  version : Str
  description : Str
  author : Str
  plugin_type : Str
  install_path : Str
  state : PluginState
  created_at : Str
  updated_at : Str
deriving DecidableEq, Repr

/-- The `plugins` map of `PluginRegistry`
(src plugin/plugin_manager.rs), as an association list. -/
abbrev RegistryPlugins := List (Str × PluginMetadata)

/-- `self.plugins.get(plugin_id)` (association-list lookup). -/
def RegistryPlugins.get (reg : RegistryPlugins) (plugin_id : Str) : Option PluginMetadata :=
  (reg.find? (fun p => p.1 = plugin_id)).map (fun p => p.2)

/-- Replace the binding of `plugin_id` (models mutation through
`get_mut`). -/
def RegistryPlugins.set (reg : RegistryPlugins) (plugin_id : Str)
    (m : PluginMetadata) : RegistryPlugins :=
  reg.map (fun p => if p.1 = plugin_id then (p.1, m) else p)

namespace PluginRegistry

/-- `PluginRegistry::update_state` (src plugin/plugin_manager.rs): look the
plugin up, check `can_transition_to`, then write the new state and refresh
`updated_at` with the current clock reading `now`. -/
def update_state (now : Str) (reg : RegistryPlugins) (plugin_id : Str)
    (new_state : PluginState) : Except PluginError RegistryPlugins :=
  match reg.get plugin_id with
  | none => .error (.notFound plugin_id)
  | some metadata =>
    if metadata.state.can_transition_to new_state then
      .ok (reg.set plugin_id { metadata with state := new_state, updated_at := now })
    else
      .error (.invalidStateTransition metadata.state new_state)

end PluginRegistry

namespace AuditLogger

/-- The audit-log directory, as the list of file stems present
(`YYYY-MM-DD` for the daily files). -/
abbrev LogDir := List Str

/-- `AuditLogger::append_log_entry` effect on the directory listing: the
file for stem `today` is created if absent (appending otherwise leaves
the listing unchanged). -/
def append_log_entry (dir : LogDir) (today : Str) : LogDir :=
  if today ∈ dir then dir else dir ++ [today]

/-- `AuditLogger::rotate_old_logs` (src plugin/audit_logger.rs): delete
every file whose stem is lexicographically strictly below the cutoff stem
(the source computes the cutoff as `now - 30 days` formatted `YYYY-MM-DD`). -/
def rotate_old_logs (dir : LogDir) (cutoff_date : Str) : LogDir :=
  dir.filter (fun file_name => ¬ StrOps.lexLt file_name cutoff_date)

/-- `AuditLogger::log_permission_check` effect on the directory listing
(src plugin/audit_logger.rs): append to the daily file, then rotate.
`today` is the formatted current date and `cutoff_date` the formatted
date thirty days earlier. -/
def log_permission_check (dir : LogDir) (today cutoff_date : Str) : LogDir :=
  rotate_old_logs (append_log_entry dir today) cutoff_date

end AuditLogger

/-- One component of a Rust `Path` (`std::path::Component`), restricted to
the variants the plugin guard can encounter on Unix. -/
inductive PathComp
  | rootDir
  | curDir
  | parentDir
  | normal (s : Str)
deriving DecidableEq, Repr

/-- A Rust `Path`, as its component list. -/
abbrev RPath := List PathComp

namespace RPath

/-- `Path::is_absolute` (Unix: the path starts with the root). -/
def isAbsolute (p : RPath) : Bool := p.head? = some PathComp.rootDir

/-- `Path::parent`: drop the last component; `None` for an empty path or
the bare root. -/
def parent : RPath → Option RPath
  | [] => none
  | [PathComp.rootDir] => none
  | p => some p.dropLast

/-- `Path::file_name`: the final component when it is a normal one. -/
def file_name (p : RPath) : Option PathComp :=
  match p.getLast? with
  | some (PathComp.normal s) => some (PathComp.normal s)
  | _ => none

/-- Render one component for `to_string_lossy` / `strip_prefix` output. -/
def compRender : PathComp → Str
  | PathComp.rootDir => ['/']
  | PathComp.curDir => ['.']
  | PathComp.parentDir => ['.', '.']
  | PathComp.normal s => s

/-- Render a path as a `/`-separated string (`to_string_lossy`). -/
def render (p : RPath) : Str :=
  List.intercalate ['/'] (p.map compRender)

end RPath

/-- The ambient filesystem world for the guard: the AppData directory, an
existence test, the canonicalization map of the OS (`None` models a
canonicalization error), file contents for reads, and the clock reading
used in audit timestamps. -/
structure FsWorld where
  appData : RPath
  exists? : RPath → Bool
  canon : RPath → Option RPath
  readFile : RPath → Option Str
  now : Str

namespace PermissionManager

/-- Scope preprocessing inside `validate_filesystem_permission`: strip a
leading `AppData/` from the granted scope before matching. -/
def scope_to_match (scope : Str) : Str :=
  if "AppData/".toList.isPrefixOf scope then scope.drop 8 else scope

/-- `PermissionManager::validate_filesystem_permission`
(src plugin/permission_manager.rs), with the audit entry it logs. -/
def validate_filesystem_permission (w : FsWorld) (ps : Permissions)
    (plugin_id : Str) (path : RPath) (write : Bool) : Bool × List AuditLogEntry :=
  let pt := if write then PermissionType.FilesystemWrite else PermissionType.FilesystemRead
  let res := RPath.render path
  match ps.get plugin_id with
  | none =>
    (false, [log_validation w.now plugin_id pt res false (some "No permissions found".toList)])
  | some permissions =>
    match w.canon w.appData with
    | none =>
      (false, [log_validation w.now plugin_id pt res false (some "AppData path error".toList)])
    | some app_data_canonical =>
      let finish : Str → Bool × List AuditLogEntry := fun relative =>
        if permissions.any (fun perm =>
            perm.permission_type = pt && perm.granted &&
              (perm.resource_scope = "*".toList ||
                matches_scope relative (scope_to_match perm.resource_scope))) then
          (true, [log_validation w.now plugin_id pt res true none])
        else
          (false, [log_validation w.now plugin_id pt res false (some "No matching permission".toList)])
      match w.canon path with
      | some canonical =>
        if app_data_canonical.isPrefixOf canonical then
          finish (RPath.render (canonical.drop app_data_canonical.length))
        else
          (false, [log_validation w.now plugin_id pt res false (some "Path outside AppData".toList)])
      | none =>
        if PathComp.parentDir ∈ path then
          (false,
            [log_validation w.now plugin_id pt res false (some "Path traversal attempt (..)".toList)])
        else if app_data_canonical.isPrefixOf path then
          finish (RPath.render (path.drop app_data_canonical.length))
        else
          (false,
            [log_validation w.now plugin_id pt res false (some "Path outside AppData (non-canonical)".toList)])

end PermissionManager

namespace FileSystemAPI

/-- `FileSystemAPI::validate_path` (src plugin/filesystem_api.rs): reject
parent-dir components and absolute paths, join onto AppData, canonicalize
(the existing path, or the nearest existing parent plus the file name, or
fall back to the canonical AppData joined with the path), require the
result to stay under the canonical AppData root, then consult the
permission manager.  Returns the canonical path and the audit entries
emitted along the way. -/
def validate_path (w : FsWorld) (ps : Permissions) (plugin_id : Str)
    (path : RPath) (write : Bool) : Except PluginError RPath × List AuditLogEntry :=
  if PathComp.parentDir ∈ path then
    (.error (.permissionDenied "Path traversal attempt (..) detected".toList), [])
  else if RPath.isAbsolute path then
    (.error (.permissionDenied "Absolute paths not allowed, use relative paths within AppData".toList), [])
  else
    let full_path := w.appData ++ path
    match w.canon w.appData with
    | none => (.error (.fileSystemError "Failed to canonicalize AppData dir".toList), [])
    | some canonical_app_data =>
      let canonical_res : Except PluginError RPath :=
        if w.exists? full_path then
          match w.canon full_path with
          | none => .error (.fileSystemError "Failed to canonicalize path".toList)
          | some c => .ok c
        else
          match RPath.parent full_path with
          | some par =>
            if w.exists? par then
              match w.canon par with
              | none => .error (.fileSystemError "Failed to canonicalize parent".toList)
              | some canonical_parent =>
                match RPath.file_name full_path with
                | some last => .ok (canonical_parent ++ [last])
                | none => .error (.fileSystemError "file_name unwrap failed".toList)
            else .ok (canonical_app_data ++ path)
          | none => .ok (canonical_app_data ++ path)
      match canonical_res with
      | .error e => (.error e, [])
      | .ok canonical_path =>
        if canonical_app_data.isPrefixOf canonical_path then
          let pm := PermissionManager.validate_filesystem_permission w ps plugin_id canonical_path write
          if pm.1 then (.ok canonical_path, pm.2)
          else (.error (.permissionDenied "No permission for path".toList), pm.2)
        else
          (.error (.permissionDenied "Path escapes AppData directory".toList), [])

/-- `FileSystemAPI::log_operation` (src plugin/filesystem_api.rs): write
and delete operations are logged under the write permission type, the
rest under read. -/
def log_operation (w : FsWorld) (plugin_id : Str) (operation : Str)
    (path : RPath) (result : Bool) (error : Option Str) : AuditLogEntry :=
  { timestamp := w.now, plugin_id := plugin_id,
    permission_type :=
      if "write".toList <:+: operation ∨ "delete".toList <:+: operation then
        PermissionType.FilesystemWrite
      else PermissionType.FilesystemRead,
    resource := RPath.render path, action := operation, result := result,
    error_message := error }

/-- `FileSystemAPI::read_file` (src plugin/filesystem_api.rs): validate
the path, then read; logs the read outcome (the validation failure paths
return before any read logging). -/
def read_file (w : FsWorld) (ps : Permissions) (plugin_id : Str)
    (path : RPath) : Except PluginError Str × List AuditLogEntry :=
  match validate_path w ps plugin_id path false with
  | (.error e, entries) => (.error e, entries)
  | (.ok validated_path, entries) =>
    match w.readFile validated_path with
    | none =>
      (.error (.fileSystemError "Failed to read file".toList),
        entries ++ [log_operation w plugin_id "read".toList validated_path false
          (some "read error".toList)])
    | some contents =>
      (.ok contents,
        entries ++ [log_operation w plugin_id "read".toList validated_path true none])

end FileSystemAPI

/-- A `serde_json::Value`; numbers are carried as rationals (the source
converts them with `as_f64`). -/
inductive JsonVal
  | null
  | bool (b : Bool)
  | num (x : Rat)
  | str (s : Str)
  | arr (elems : List JsonVal)
  | obj (fields : List (Str × JsonVal))

/-- `StorageValue` (src plugin/storage_api.rs): string, number, boolean,
or arbitrary JSON (`Object`). -/
inductive StorageValue
  | str (s : Str)
  | number (x : Rat)
  | boolean (b : Bool)
  | object (j : JsonVal)

/-- Per-plugin stored data (`PluginStorageData.data`), as an association
list key to value. -/
abbrev PluginStorageData := List (Str × StorageValue)

/-- Association-list lookup (HashMap `get`). -/
def assocGet {α : Type} (l : List (Str × α)) (k : Str) : Option α :=
  (l.find? (fun p => p.1 = k)).map (fun p => p.2)

/-- Association-list insert-or-replace (HashMap `insert`). -/
def assocPut {α : Type} (l : List (Str × α)) (k : Str) (v : α) : List (Str × α) :=
  if (l.find? (fun p => p.1 = k)).isSome then
    l.map (fun p => if p.1 = k then (k, v) else p)
  else l ++ [(k, v)]

/-- The ambient world of the storage component: the serde JSON codec and
the disk.  `diskLoad` returns the parsed storage file of a plugin (a
missing file loads as the empty map, a read or parse failure is `none`);
`saveOk` tells whether the atomic rewrite of the storage file of a plugin
succeeds. -/
structure StoreWorld where
  parse : Str → Option JsonVal
  serialize : JsonVal → Str
  diskLoad : Str → Option PluginStorageData
  saveOk : Str → Bool

/-- The in-memory `storage: HashMap<PluginId, PluginStorageData>`. -/
abbrev StorageMem := List (Str × PluginStorageData)

namespace StorageAPI

/-- `serde_json::to_string` of a `StorageValue`: the untagged enum
serializes its payload directly. -/
def serializeValue (w : StoreWorld) : StorageValue → Str
  | .str s => w.serialize (.str s)
  | .number x => w.serialize (.num x)
  | .boolean b => w.serialize (.bool b)
  | .object j => w.serialize j

/-- The `StorageValue` that `set` stores for a raw input string
(src plugin/storage_api.rs): parse as JSON, map string, number and boolean
to their variants, anything else parsed to `Object`, and fall back to
`String` of the raw input on parse failure. -/
def valueOfRaw (w : StoreWorld) (value : Str) : StorageValue :=
  match w.parse value with
  | some (.str s) => .str s
  | some (.num n) => .number n
  | some (.bool b) => .boolean b
  | some other => .object other
  | none => .str value

/-- `StorageAPI::ensure_loaded` (src plugin/storage_api.rs). -/
def ensure_loaded (w : StoreWorld) (mem : StorageMem) (plugin_id : Str) :
    Except PluginError StorageMem :=
  if (assocGet mem plugin_id).isSome then .ok mem
  else
    match w.diskLoad plugin_id with
    | none => .error (.permissionDenied "Failed to read or parse storage".toList)
    | some data => .ok (assocPut mem plugin_id data)

/-- `StorageAPI::set` (src plugin/storage_api.rs): reject empty keys,
load, store the parsed value in memory, then persist; returns the result
together with the memory state afterwards. -/
def set (w : StoreWorld) (mem : StorageMem) (plugin_id key value : Str) :
    Except PluginError Unit × StorageMem :=
  if key = [] then
    (.error (.permissionDenied "Storage key cannot be empty".toList), mem)
  else
    match ensure_loaded w mem plugin_id with
    | .error e => (.error e, mem)
    | .ok mem1 =>
      let storage_value := valueOfRaw w value
      match assocGet mem1 plugin_id with
      | none => (.error (.permissionDenied "Storage not initialized".toList), mem1)
      | some plugin_data =>
        let mem2 := assocPut mem1 plugin_id (assocPut plugin_data key storage_value)
        if w.saveOk plugin_id then (.ok (), mem2)
        else (.error (.permissionDenied "Failed to write storage".toList), mem2)

/-- `StorageAPI::get` (src plugin/storage_api.rs): load, look the key up,
serialize a present value. -/
def get (w : StoreWorld) (mem : StorageMem) (plugin_id key : Str) :
    Except PluginError (Option Str) × StorageMem :=
  match ensure_loaded w mem plugin_id with
  | .error e => (.error e, mem)
  | .ok mem1 =>
    match assocGet mem1 plugin_id with
    | none => (.error (.permissionDenied "Storage not initialized".toList), mem1)
    | some plugin_data =>
      match assocGet plugin_data key with
      | some value => (.ok (some (serializeValue w value)), mem1)
      | none => (.ok none, mem1)

/-- `encode` of the round-trip property: parse the raw input as `set`
does, then re-serialize the stored variant as `get` does. -/
def encode (w : StoreWorld) (value : Str) : Str :=
  serializeValue w (valueOfRaw w value)

end StorageAPI

/-- HTTP methods (src plugin/network_proxy.rs `HttpMethod`). -/
inductive HttpMethod
  | Get
  | Post
  | Put
  | Delete
  | Patch
  | Head
  | Options
deriving DecidableEq, Repr

namespace HttpMethod

/-- `HttpMethod::as_str`. -/
def as_str : HttpMethod → Str
  | Get => "GET".toList
  | Post => "POST".toList
  | Put => "PUT".toList
  | Delete => "DELETE".toList
  | Patch => "PATCH".toList
  | Head => "HEAD".toList
  | Options => "OPTIONS".toList

end HttpMethod

/-- An HTTP request (src plugin/network_proxy.rs `HttpRequest`). -/
structure HttpRequest where
  url : Str
  method : HttpMethod
  headers : List (Str × Str)
  body : Option Str
  timeout_secs : Option Nat
deriving DecidableEq, Repr

/-- An HTTP response (src plugin/network_proxy.rs `HttpResponse`). -/
structure HttpResponse where
  status : Nat
  headers : List (Str × Str)
  body : Str
deriving DecidableEq, Repr

/-- A response-cache entry with its expiry instant
(src plugin/network_proxy.rs `CacheEntry`); instants are rationals. -/
structure CacheEntry where
  response : HttpResponse
  expires_at : Rat
deriving DecidableEq, Repr

/-- A token bucket (src plugin/network_proxy.rs `TokenBucket`); the `f64`
token counts are carried as rationals, instants as rationals. -/
structure TokenBucket where
  tokens : Rat
  capacity : Rat
  refill_rate : Rat
  last_refill : Rat
deriving DecidableEq, Repr

namespace TokenBucket

/-- `TokenBucket::new` at creation instant `now`. -/
def new (capacity refill_rate now : Rat) : TokenBucket :=
  { tokens := capacity, capacity := capacity, refill_rate := refill_rate, last_refill := now }

/-- `TokenBucket::refill` at instant `now`: linear refill saturated at
capacity. -/
def refill (now : Rat) (b : TokenBucket) : TokenBucket :=
  { b with tokens := min (b.tokens + (now - b.last_refill) * b.refill_rate) b.capacity,
           last_refill := now }

/-- `TokenBucket::try_consume` at instant `now`. -/
def try_consume (now : Rat) (n : Rat) (b : TokenBucket) : Bool × TokenBucket :=
  let b1 := refill now b
  if n ≤ b1.tokens then (true, { b1 with tokens := b1.tokens - n })
  else (false, b1)

end TokenBucket

/-- The mutable state of the network proxy: per-plugin token buckets and
the response cache (the LRU capacity bound of 1000 entries is not
modelled; it only evicts, which no claim depends on). -/
structure ProxyState where
  limiters : List (Str × TokenBucket)
  cache : List (Str × CacheEntry)
deriving DecidableEq, Repr

/-- The ambient world of the network proxy: URL host extraction (`None`
models both an unparseable URL and a URL without a host), the HTTP
transport, the monotonic clock and the wall-clock timestamp string for
audit purposes. -/
structure NetWorld where
  parseHost : Str → Option Str
  send : HttpRequest → Nat → Except Str HttpResponse
  now : Rat
  nowStr : Str

namespace NetworkProxy

/-- `NetworkProxy::check_rate_limit` (src plugin/network_proxy.rs):
get-or-create the bucket of the plugin (100 tokens, 100 per 60 seconds),
then try to consume one token. -/
def check_rate_limit (now : Rat) (limiters : List (Str × TokenBucket))
    (plugin_id : Str) : Bool × List (Str × TokenBucket) :=
  let bucket := (assocGet limiters plugin_id).getD (TokenBucket.new 100 (100 / 60) now)
  let r := TokenBucket.try_consume now 1 bucket
  (r.1, assocPut limiters plugin_id r.2)

/-- `NetworkProxy::cache_key` (src plugin/network_proxy.rs):
`METHOD:URL`, plus `:auth:<value>` when an Authorization header is
present. -/
def cache_key (req : HttpRequest) : Str :=
  let key := req.method.as_str ++ ":".toList ++ req.url
  match assocGet req.headers "Authorization".toList with
  | some auth => key ++ ":auth:".toList ++ auth
  | none => key

/-- `NetworkProxy::get_cached` (src plugin/network_proxy.rs): a hit that
is not expired is returned; an expired entry is evicted. -/
def get_cached (now : Rat) (cache : List (Str × CacheEntry)) (req : HttpRequest) :
    Option HttpResponse × List (Str × CacheEntry) :=
  let key := cache_key req
  match assocGet cache key with
  | some entry =>
    if now < entry.expires_at then (some entry.response, cache)
    else (none, cache.filter (fun p => p.1 ≠ key))
  | none => (none, cache)

/-- `NetworkProxy::cache_response` with TTL in seconds. -/
def cache_response (now : Rat) (cache : List (Str × CacheEntry))
    (req : HttpRequest) (response : HttpResponse) (ttl_secs : Rat) :
    List (Str × CacheEntry) :=
  assocPut cache (cache_key req) { response := response, expires_at := now + ttl_secs }

/-- The outcome of `NetworkProxy::request`: the result, the proxy state
afterwards, and whether an HTTP request went out on the wire. -/
structure RequestOutcome where
  result : Except PluginError HttpResponse
  state : ProxyState
  httpIssued : Bool

/-- `NetworkProxy::request` (src plugin/network_proxy.rs): validate the
domain, consume a rate-limit token, serve fresh GET hits from the cache,
clamp the timeout, reject OPTIONS, send, and cache successful GET
responses for 300 seconds. -/
def request (w : NetWorld) (ps : Permissions) (plugin_id : Str)
    (req : HttpRequest) (st : ProxyState) : RequestOutcome :=
  match w.parseHost req.url with
  | none =>
    { result := .error (.permissionDenied "Invalid URL or URL has no host".toList),
      state := st, httpIssued := false }
  | some domain =>
    if (PermissionManager.validate_network_permission w.nowStr ps plugin_id domain).1 then
      let rl := check_rate_limit w.now st.limiters plugin_id
      let st1 : ProxyState := { st with limiters := rl.2 }
      if rl.1 then
        let hit := if req.method = HttpMethod.Get then get_cached w.now st1.cache req
                   else (none, st1.cache)
        match hit.1 with
        | some cached => { result := .ok cached, state := { st1 with cache := hit.2 },
                           httpIssued := false }
        | none =>
          let st2 : ProxyState := { st1 with cache := hit.2 }
          let timeout := min (req.timeout_secs.getD 30) 300
          match req.method with
          | HttpMethod.Options =>
            { result := .error (.permissionDenied "OPTIONS method not supported".toList),
              state := st2, httpIssued := false }
          | _ =>
            match w.send req timeout with
            | .error _ =>
              { result := .error (.permissionDenied "HTTP request failed".toList),
                state := st2, httpIssued := true }
            | .ok response =>
              let st3 : ProxyState :=
                if req.method = HttpMethod.Get ∧ response.status = 200 then
                  { st2 with cache := cache_response w.now st2.cache req response 300 }
                else st2
              { result := .ok response, state := st3, httpIssued := true }
      else
        { result := .error (.permissionDenied "Rate limit exceeded (100 req per min)".toList),
          state := st1, httpIssued := false }
    else
      { result := .error (.permissionDenied "No network permission for domain".toList),
        state := st, httpIssued := false }

end NetworkProxy

/-- Activation events (src plugin/manifest_parser.rs `ActivationEvent`). -/
inductive ActivationEvent
  | OnCommand (id : Str)
  | OnView (id : Str)
  | OnStartupFinished
  | OnLanguage (id : Str)
  | OnFileOpen (pattern : Str)
deriving DecidableEq, Repr

namespace ActivationEvent

/-- `ActivationEvent::from_str` (src plugin/manifest_parser.rs): split at
the first `:`; `onCommand`, `onView`, `onLanguage` and `onFileOpen`
require a value, `onStartupFinished` does not; other types are errors. -/
def from_str (s : Str) : Except PluginError ActivationEvent :=
  let parts := StrOps.splitFirst ':' s
  let event_type := parts.1
  if event_type = "onCommand".toList then
    match parts.2 with
    | some command_id => .ok (OnCommand command_id)
    | none => .error (.manifestError "onCommand requires command ID".toList)
  else if event_type = "onView".toList then
    match parts.2 with
    | some view_id => .ok (OnView view_id)
    | none => .error (.manifestError "onView requires view ID".toList)
  else if event_type = "onStartupFinished".toList then .ok OnStartupFinished
  else if event_type = "onLanguage".toList then
    match parts.2 with
    | some language_id => .ok (OnLanguage language_id)
    | none => .error (.manifestError "onLanguage requires language ID".toList)
  else if event_type = "onFileOpen".toList then
    match parts.2 with
    | some pattern => .ok (OnFileOpen pattern)
    | none => .error (.manifestError "onFileOpen requires file pattern".toList)
  else .error (.manifestError "Unknown activation event".toList)

end ActivationEvent

/-- Identifier validity shared by command, view and event contributions
(src plugin/manifest_parser.rs): non-empty, contains a dot, characters
alphanumeric, dot or hyphen.  The Rust `char::is_alphanumeric` is
Unicode-aware; identifiers in scope here are ASCII. -/
def validIdentifier (identifier : Str) : Bool :=
  identifier ≠ [] && identifier.contains '.' &&
    identifier.all (fun c => c.isAlphanum || c = '.' || c = '-')

/-- A command contribution (src plugin/manifest_parser.rs `Command`). -/
structure Command where
  identifier : Str
  title : Str
  description : Option Str
deriving DecidableEq, Repr

/-- `Command::validate`. -/
def Command.validate (c : Command) : Except PluginError Unit :=
  if c.identifier = [] then .error (.manifestError "Command identifier cannot be empty".toList)
  else if ¬ c.identifier.contains '.' then
    .error (.manifestError "Command identifier must contain a dot".toList)
  else if ¬ c.identifier.all (fun ch => ch.isAlphanum || ch = '.' || ch = '-') then
    .error (.manifestError "Invalid characters in command identifier".toList)
  else if c.title = [] then .error (.manifestError "Command title cannot be empty".toList)
  else .ok ()

/-- View locations (src plugin/manifest_parser.rs `ViewLocation`). -/
inductive ViewLocation
  | Sidebar
  | Panel
  | Editor
deriving DecidableEq, Repr

/-- A view contribution (src plugin/manifest_parser.rs `View`). -/
structure View where
  identifier : Str
  title : Str
  description : Option Str
  location : ViewLocation
deriving DecidableEq, Repr

/-- `View::validate`. -/
def View.validate (v : View) : Except PluginError Unit :=
  if v.identifier = [] then .error (.manifestError "View identifier cannot be empty".toList)
  else if ¬ v.identifier.contains '.' then
    .error (.manifestError "View identifier must contain a dot".toList)
  else if ¬ v.identifier.all (fun ch => ch.isAlphanum || ch = '.' || ch = '-') then
    .error (.manifestError "Invalid characters in view identifier".toList)
  else if v.title = [] then .error (.manifestError "View title cannot be empty".toList)
  else .ok ()

/-- An event contribution (src plugin/manifest_parser.rs `Event`). -/
structure Event where
  identifier : Str
  description : Option Str
deriving DecidableEq, Repr

/-- `Event::validate`. -/
def Event.validate (e : Event) : Except PluginError Unit :=
  if e.identifier = [] then .error (.manifestError "Event identifier cannot be empty".toList)
  else if ¬ e.identifier.contains '.' then
    .error (.manifestError "Event identifier must contain a dot".toList)
  else if ¬ e.identifier.all (fun ch => ch.isAlphanum || ch = '.' || ch = '-') then
    .error (.manifestError "Invalid characters in event identifier".toList)
  else .ok ()

/-- A keybinding contribution (src plugin/manifest_parser.rs
`Keybinding`). -/
structure Keybinding where
  command : Str
  key : Str
  when_ : Option Str
deriving DecidableEq, Repr

/-- `Keybinding::validate`. -/
def Keybinding.validate (k : Keybinding) : Except PluginError Unit :=
  if k.command = [] then .error (.manifestError "Keybinding command cannot be empty".toList)
  else if k.key = [] then .error (.manifestError "Keybinding key cannot be empty".toList)
  else .ok ()

/-- Run a validator over a list, stopping at the first error (embeds the
`for` loops with `?` in the source). -/
def firstErr {α : Type} (f : α → Except PluginError Unit) : List α → Except PluginError Unit
  | [] => .ok ()
  | x :: xs =>
    match f x with
    | .error e => .error e
    | .ok () => firstErr f xs

/-- Contribution points (src plugin/manifest_parser.rs
`ContributionPoints`). -/
structure ContributionPoints where
  commands : List Command
  views : List View
  events : List Event
  keybindings : List Keybinding
deriving DecidableEq, Repr

/-- `ContributionPoints::validate`. -/
def ContributionPoints.validate (cp : ContributionPoints) : Except PluginError Unit :=
  match firstErr Command.validate cp.commands with
  | .error e => .error e
  | .ok () =>
    match firstErr View.validate cp.views with
    | .error e => .error e
    | .ok () =>
      match firstErr Event.validate cp.events with
      | .error e => .error e
      | .ok () => firstErr Keybinding.validate cp.keybindings

/-- The plugin manifest (src plugin/manifest_parser.rs `PluginManifest`);
maps are association lists. -/
structure PluginManifest where
  manifest_version : Str
  name : Str
  display_name : Str
  version : Str
  description : Str
  author : Str
  plugin_type : Str
  main : Str
  activation_events : List Str
  permissions : List Str
  contributes : ContributionPoints
  engines : List (Str × Str)
  dependencies : List (Str × Str)
deriving DecidableEq, Repr

/-- `is_valid_version` (src plugin/manifest_parser.rs): split on dots into
exactly three parts, each parsing as a `u32`. -/
def is_valid_version (version : Str) : Bool :=
  let parts := StrOps.splitAll '.' version
  parts.length = 3 && parts.all (fun part => (StrOps.parseU32 part).isSome)

/-- `is_valid_version_range` (src plugin/manifest_parser.rs): strip all
leading range-operator characters, then `is_valid_version`. -/
def is_valid_version_range (version_range : Str) : Bool :=
  is_valid_version (version_range.dropWhile (fun c => c ∈ ['^', '~', '>', '=', '<']))

namespace PluginManifest

/-- `PluginManifest::validate` (src plugin/manifest_parser.rs): required
fields non-empty, both versions in `X.Y.Z` form, name from the allowed
characters, known plugin type, all activation events recognized, all
contributions valid, all dependency ranges valid. -/
def validate (m : PluginManifest) : Except PluginError Unit :=
  if m.name = [] then .error (.manifestValidation "Missing required field name".toList)
  else if m.version = [] then .error (.manifestValidation "Missing required field version".toList)
  else if m.description = [] then
    .error (.manifestValidation "Missing required field description".toList)
  else if ¬ is_valid_version m.manifest_version then
    .error (.manifestValidation "Invalid manifest version format".toList)
  else if ¬ is_valid_version m.version then
    .error (.manifestValidation "Invalid version format".toList)
  else if ¬ m.name.all (fun c => c.isAlphanum || c = '-' || c = '_') then
    .error (.manifestValidation "Invalid plugin name".toList)
  else if ¬ (m.plugin_type ∈
      ["synchronous".toList, "asynchronous".toList, "static".toList, "service".toList,
        "messagePreprocessor".toList]) then
    .error (.manifestValidation "Invalid plugin type".toList)
  else
    match firstErr (fun e => (ActivationEvent.from_str e).map (fun _ => ()))
        m.activation_events with
    | .error e => .error e
    | .ok () =>
      match m.contributes.validate with
      | .error e => .error e
      | .ok () =>
        firstErr
          (fun dep =>
            if ¬ is_valid_version_range dep.2 then
              .error (.manifestValidation "Invalid dependency version".toList)
            else .ok ())
          m.dependencies

end PluginManifest

/-- The `manifests` map of the registry that dependency resolution walks
(src plugin/plugin_manager.rs), as an association list. -/
abbrev ManifestRegistry := List (Str × PluginManifest)

/-- `PluginRegistry::get_manifest`. -/
def ManifestRegistry.get_manifest (r : ManifestRegistry) (plugin_id : Str) :
    Option PluginManifest :=
  (r.find? (fun p => p.1 = plugin_id)).map (fun p => p.2)

/-- The dependency keys of a manifest (`manifest.dependencies` iterated by
key). -/
def depKeys (m : PluginManifest) : List Str := m.dependencies.map (fun d => d.1)

/-- The mutable traversal state of `PluginManager::resolve_dependencies`:
output order, permanent marks, temporary marks. -/
structure VisitState where
  order : List Str
  visited : List Str
  temp_mark : List Str
deriving DecidableEq, Repr

namespace PluginManager

/-- The `for` loop over dependency keys inside
`PluginManager::visit_dependency`: run the visitor over each key,
stopping at the first error (`None` propagates fuel exhaustion of the
embedding). -/
def foldVisit (f : Str → VisitState → Option (Except PluginError VisitState)) :
    List Str → VisitState → Option (Except PluginError VisitState)
  | [], st => some (.ok st)
  | d :: ds, st =>
    match f d st with
    | none => none
    | some (.error e) => some (.error e)
    | some (.ok st1) => foldVisit f ds st1

/-- `PluginManager::visit_dependency` (src plugin/plugin_manager.rs):
return early for permanently marked nodes, fail on temporarily marked
nodes (cycle), otherwise temp-mark, recurse into the dependency keys of
the manifest, then clear the temp mark, set the permanent mark and append
to the order.  The recursion is bounded by explicit fuel; `None` means the
fuel ran out, which `visit_fuel_sufficient` below rules out for the fuel
used by `resolve_dependencies`. -/
def visit_dependency (r : ManifestRegistry) : Nat → Str → VisitState →
    Option (Except PluginError VisitState)
  | 0, _, _ => none
  | fuel + 1, plugin_id, st =>
    if plugin_id ∈ st.visited then some (.ok st)
    else if plugin_id ∈ st.temp_mark then
      some (.error (.dependencyError "Circular dependency detected".toList))
    else
      let st1 : VisitState := { st with temp_mark := plugin_id :: st.temp_mark }
      match r.get_manifest plugin_id with
      | none => some (.error (.notFound plugin_id))
      | some manifest =>
        match foldVisit (visit_dependency r fuel) (depKeys manifest) st1 with
        | none => none
        | some (.error e) => some (.error e)
        | some (.ok st2) =>
          some (.ok { order := st2.order ++ [plugin_id],
                      visited := plugin_id :: st2.visited,
                      temp_mark := st2.temp_mark.erase plugin_id })

/-- `PluginManager::resolve_dependencies` (src plugin/plugin_manager.rs):
look the root up, then run the depth-first visit from an empty state.
The fuel `r.length + 1` strictly exceeds the number of registered ids, so
the fuel-out branch is unreachable (`visit_fuel_sufficient`); it is mapped
to an error constructor the visitor itself never produces. -/
def resolve_dependencies (r : ManifestRegistry) (plugin_id : Str) :
    Except PluginError (List Str) :=
  match r.get_manifest plugin_id with
  | none => .error (.notFound plugin_id)
  | some _ =>
    match visit_dependency r (r.length + 1) plugin_id ⟨[], [], []⟩ with
    | some (.ok st) => .ok st.order
    | some (.error e) => .error e
    | none => .error (.ioError "unreachable fuel exhaustion".toList)

end PluginManager

/-! Theorems, one per claim, with witnesses for the hypothesised ones. -/

/-- Concrete metadata used by witness instantiations. -/
def demoMeta : PluginMetadata :=
  { id := "p".toList, name := "p".toList, display_name := "P".toList,
    version := "1.0.0".toList, description := "d".toList, author := "a".toList,
    plugin_type := "synchronous".toList, install_path := "plugins/p".toList,
    state := PluginState.Installed, created_at := [], updated_at := [] }

/-- C2: a state update succeeds exactly when the pair of states is in the
legal transition set, and any other requested transition on a registered
plugin is rejected with InvalidStateTransition carrying the two states;
`can_transition_to` holds exactly on the nine legal pairs. -/
theorem c2_update_state_legal :
    (∀ f t : PluginState, f.can_transition_to t = true ↔
      (f, t) ∈ ([(.Uninstalled, .Installed), (.Installed, .Loaded),
        (.Installed, .Uninstalled), (.Loaded, .Activated), (.Activated, .Running),
        (.Running, .Deactivated), (.Deactivated, .Activated), (.Deactivated, .Installed),
        (.Deactivated, .Uninstalled)] : List (PluginState × PluginState))) ∧
    ∀ (now : Str) (reg : RegistryPlugins) (plugin_id : Str) (meta : PluginMetadata)
      (new_state : PluginState), reg.get plugin_id = some meta →
      (meta.state.can_transition_to new_state = true →
        PluginRegistry.update_state now reg plugin_id new_state =
          .ok (reg.set plugin_id { meta with state := new_state, updated_at := now })) ∧
      (meta.state.can_transition_to new_state = false →
        PluginRegistry.update_state now reg plugin_id new_state =
          .error (.invalidStateTransition meta.state new_state)) := by
  constructor
  · intro f t
    cases f <;> cases t <;> decide
  · intro now reg plugin_id meta new_state hget
    unfold PluginRegistry.update_state
    rw [hget]
    constructor
    · intro h
      simp [h]
    · intro h
      simp [h]

/-- C2 witness: on a one-plugin registry in state Installed, the Loaded
transition succeeds and the Running transition is rejected. -/
theorem c2_update_state_legal_witness :
    PluginRegistry.update_state [] [("p".toList, demoMeta)] "p".toList PluginState.Loaded =
      .ok [("p".toList, { demoMeta with state := PluginState.Loaded, updated_at := [] })] ∧
    PluginRegistry.update_state [] [("p".toList, demoMeta)] "p".toList PluginState.Running =
      .error (.invalidStateTransition PluginState.Installed PluginState.Running) := by
  have h := c2_update_state_legal.2 [] [("p".toList, demoMeta)] "p".toList demoMeta
  constructor
  · have hok := (h PluginState.Loaded (by decide)).1 (by decide)
    rw [hok]
    rfl
  · exact (h PluginState.Running (by decide)).2 (by decide)

/-- C9: after a `log_permission_check`, no file remains in the audit-log
directory whose stem is lexicographically strictly below the cutoff stem
(the formatted date of thirty days before today). -/
theorem c9_rotation_removes_old_logs :
    ∀ (dir : AuditLogger.LogDir) (today cutoff_date : Str),
      ∀ s ∈ AuditLogger.log_permission_check dir today cutoff_date,
        StrOps.lexLt s cutoff_date = false := by
  intro dir today cutoff_date s hs
  unfold AuditLogger.log_permission_check AuditLogger.rotate_old_logs at hs
  simp only [List.mem_filter] at hs
  simpa using hs.2

/-- C9 witness: a directory holding a 31-day-old stem loses it, while the
in-window stem survives and satisfies the theorem at the cutoff
2026-09-12 for today 2026-10-12. -/
theorem c9_rotation_removes_old_logs_witness :
    StrOps.lexLt "2026-09-20".toList "2026-09-12".toList = false ∧
    AuditLogger.log_permission_check ["2026-08-11".toList, "2026-09-20".toList]
      "2026-10-12".toList "2026-09-12".toList =
      ["2026-09-20".toList, "2026-10-12".toList] := by
  constructor
  · exact c9_rotation_removes_old_logs ["2026-08-11".toList, "2026-09-20".toList]
      "2026-10-12".toList "2026-09-12".toList "2026-09-20".toList (by decide)
  · decide

/-- C4: the network scope semantics.  A granted scope `*` admits every
host; a `*.S` pattern matches exactly `S` itself and the hosts that end
in `S` with a dot immediately before that suffix; any other pattern
matches only the identical host. -/
theorem c4_domain_pattern_semantics :
    ∀ (host pat : Str),
      (pat = "*".toList → ∀ (now plugin_id : Str),
        (PermissionManager.validate_network_permission now
          [(plugin_id, [{ plugin_id := plugin_id,
                          permission_type := PermissionType.NetworkRequest,
                          resource_scope := pat, granted := true }])] plugin_id host).1
          = true) ∧
      ("*.".toList <+: pat →
        (PermissionManager.matches_domain host pat = true ↔
          host = pat.drop 2 ∨
            ∃ pre, pre.getLast? = some '.' ∧ host = pre ++ pat.drop 2)) ∧
      (¬ ("*.".toList <+: pat) →
        (PermissionManager.matches_domain host pat = true ↔ host = pat)) := by
  intro host pat
  refine ⟨?_, ?_, ?_⟩
  · intro hpat now plugin_id
    subst hpat
    simp [PermissionManager.validate_network_permission, Permissions.get, List.find?]
  · intro hp
    have hpb : "*.".toList.isPrefixOf pat = true := List.isPrefixOf_iff_prefix.mpr hp
    by_cases heq : host = pat.drop 2
    · simp only [PermissionManager.matches_domain, hpb, heq]
      simp only [List.isPrefixOf_iff_prefix] at hpb
      simp [hpb]
    · by_cases hsuf : (pat.drop 2).isSuffixOf host = true
      · obtain ⟨pre, hpres⟩ := List.isSuffixOf_iff_suffix.mp hsuf
        have hpre_ne : pre ≠ [] := by
          intro hnil
          exact heq (by rw [← hpres, hnil, List.nil_append])
        have hlen : host.length - (pat.drop 2).length = pre.length := by
          rw [← hpres, List.length_append]
          omega
        have hget : host.get? (pre.length - 1) = pre.get? (pre.length - 1) := by
          rw [← hpres]
          exact List.get?_append (by
            have := List.length_pos.mpr hpre_ne
            omega)
        have hlast : pre.getLast? = pre.get? (pre.length - 1) := List.getLast?_eq_get? pre
        constructor
        · intro h
          simp only [PermissionManager.matches_domain, hpb, if_true, heq, if_false, hsuf,
            hlen, decide_eq_true_eq] at h
          refine Or.inr ⟨pre, ?_, hpres.symm⟩
          rw [hlast, ← hget]
          exact h
        · intro _
          simp only [PermissionManager.matches_domain, hpb, if_true, heq, if_false, hsuf,
            hlen, decide_eq_true_eq]
          rcases ‹_ ∨ _› with h | ⟨pre2, hdot2, happ2⟩
          · exact absurd h heq
          · have hpre2_ne : pre2 ≠ [] := by
              intro hnil
              rw [hnil] at hdot2
              exact absurd hdot2 (by simp)
            have : pre2 = pre := by
              have h12 : pre2 ++ pat.drop 2 = pre ++ pat.drop 2 := by rw [← happ2, hpres]
              exact List.append_cancel_right h12
            rw [hget, ← hlast, ← this]
            exact hdot2
      · constructor
        · intro h
          simp only [PermissionManager.matches_domain, hpb, if_true, heq, if_false, hsuf] at h
          simp at h
        · intro h
          rcases h with h | ⟨pre, hdot, happ⟩
          · exact absurd h heq
          · exact absurd (List.isSuffixOf_iff_suffix.mpr ⟨pre, happ.symm⟩) (by simp [hsuf])
  · intro hp
    have hpb : "*.".toList.isPrefixOf pat = false := by
      rcases h : "*.".toList.isPrefixOf pat with _ | _
      · rfl
      · exact absurd (List.isPrefixOf_iff_prefix.mp h) hp
    simp [PermissionManager.matches_domain, hpb, hp]
    intro hx
    exact absurd hx hp

/-- C4 witness: `api.example.com` matches the granted pattern
`*.example.com`, by the wildcard clause of the theorem. -/
theorem c4_domain_pattern_semantics_witness :
    PermissionManager.matches_domain "api.example.com".toList "*.example.com".toList = true :=
  ((c4_domain_pattern_semantics "api.example.com".toList "*.example.com".toList).2.1
      (by decide)).mpr
    (Or.inr ⟨"api.".toList, by decide, by decide⟩)

/-- Helper for splitting a permission string at the first colon when the
type part has none. -/
theorem splitFirst_append_sep (a b : Str) (h : ':' ∉ a) :
    StrOps.splitFirst ':' (a ++ ':' :: b) = (a, some b) := by
  induction a with
  | nil => simp [StrOps.splitFirst]
  | cons x xs ih =>
    have hx : x ≠ ':' := fun hc => h (hc ▸ List.mem_cons_self x xs)
    have hxs : ':' ∉ xs := fun hc => h (List.mem_cons_of_mem x hc)
    simp [StrOps.splitFirst, hx, ih hxs]

/-- C10: with a single granted `network.request` scope `*.S`, the network
validator accepts a proper subdomain host of `S`, while `has_permission`
on `network.request:<host>` is false for the same host, because it goes
through the path-style scope matcher. -/
theorem c10_validate_accepts_has_permission_denies :
    ∀ (sub S plugin_id now : Str), sub ≠ [] → '*' ∉ sub → '*' ∉ S →
      (PermissionManager.validate_network_permission now
        [(plugin_id, [{ plugin_id := plugin_id,
                        permission_type := PermissionType.NetworkRequest,
                        resource_scope := '*' :: '.' :: S, granted := true }])]
        plugin_id (sub ++ '.' :: S)).1 = true ∧
      PermissionManager.has_permission
        [(plugin_id, [{ plugin_id := plugin_id,
                        permission_type := PermissionType.NetworkRequest,
                        resource_scope := '*' :: '.' :: S, granted := true }])]
        plugin_id ("network.request:".toList ++ (sub ++ '.' :: S)) = false := by
  intro sub S plugin_id now hsub hstar hstarS
  have hscope_ne : ('*' :: '.' :: S) ≠ "*".toList := by
    intro h
    exact absurd (congrArg List.length h) (by simp)
  constructor
  · -- the domain matcher accepts sub ++ "." ++ S against *.S
    have hmd : PermissionManager.matches_domain (sub ++ '.' :: S) ('*' :: '.' :: S) = true := by
      unfold PermissionManager.matches_domain
      have hpb : "*.".toList.isPrefixOf ('*' :: '.' :: S) = true := by
        simp [List.isPrefixOf]
      rw [if_pos hpb]
      have hne : sub ++ '.' :: S ≠ List.drop 2 ('*' :: '.' :: S) := by
        intro h
        simp only [List.drop] at h
        have := congrArg List.length h
        simp [List.length_append] at this
        omega
      rw [if_neg (by simpa using hne)]
      have hsuf : (List.drop 2 ('*' :: '.' :: S)).isSuffixOf (sub ++ '.' :: S) = true := by
        apply List.isSuffixOf_iff_suffix.mpr
        exact ⟨sub ++ ['.'], by simp⟩
      rw [if_pos hsuf]
      show decide ((sub ++ '.' :: S).get?
        ((sub ++ '.' :: S).length - (List.drop 2 ('*' :: '.' :: S)).length - 1) = some '.') = true
      have hlen : (sub ++ '.' :: S).length - (List.drop 2 ('*' :: '.' :: S)).length - 1
          = sub.length := by
        simp only [List.length_append, List.length_cons, List.length_drop]
        omega
      rw [hlen]
      have hget : (sub ++ '.' :: S).get? sub.length = some '.' := by
        rw [List.get?_append_right (le_refl _)]
        simp
      rw [hget]
      rfl
    simp [PermissionManager.validate_network_permission, Permissions.get, List.find?,
      hscope_ne, hmd]
  · -- has_permission routes through matches_scope, which rejects
    have hsplit : StrOps.splitFirst ':' ("network.request:".toList ++ (sub ++ '.' :: S))
        = ("network.request".toList, some (sub ++ '.' :: S)) := by
      rw [show ("network.request:".toList : Str) = "network.request".toList ++ [':'] from rfl,
        List.append_assoc, List.singleton_append]
      exact splitFirst_append_sep _ _ (by decide)
    have hms : PermissionManager.matches_scope (sub ++ '.' :: S) ('*' :: '.' :: S) = false := by
      unfold PermissionManager.matches_scope
      have hsufp : ¬ (['/', '*'] <:+ ('*' :: '.' :: S)) := by
        intro hx
        obtain ⟨t, ht⟩ := hx
        have hlast : ('*' :: '.' :: S).getLast? = some '*' := by
          rw [← ht, List.getLast?_append_of_ne_nil t (by simp)]
          rfl
        cases hS : S with
        | nil =>
          rw [hS] at hlast
          simp at hlast
        | cons y ys =>
          have hS_ne : S ≠ [] := by rw [hS]; simp
          have h2 : ('*' :: '.' :: S).getLast? = S.getLast? := by
            rw [show ('*' :: '.' :: S) = ['*', '.'] ++ S from rfl]
            exact List.getLast?_append_of_ne_nil _ hS_ne
          rw [h2] at hlast
          exact hstarS (List.mem_of_mem_getLast? hlast)
      rw [if_neg (by simpa [List.isSuffixOf_iff_suffix] using hsufp)]
      obtain ⟨c, cs, hc⟩ := List.exists_cons_of_ne_nil hsub
      have hcne : c ≠ '*' := fun h => hstar (h ▸ (hc ▸ List.mem_cons_self c cs))
      simp only [hc, List.cons_append, List.map_cons]
      apply decide_eq_false
      intro h
      have hhead := List.head_eq_of_cons_eq h
      by_cases hb : c = '\\'
      · rw [if_pos hb] at hhead
        exact absurd hhead (by decide)
      · rw [if_neg hb] at hhead
        exact hcne hhead
    have hft : PermissionType.from_str "network.request".toList
        = some PermissionType.NetworkRequest := by decide
    unfold PermissionManager.has_permission
    simp only [hsplit]
    simp [hft, Permissions.get, List.find?, hscope_ne, hms]
    decide

/-- C10 witness: plugin `p` granted `network.request:*.example.com` passes
the network validator for `api.example.com` but fails `has_permission` on
`network.request:api.example.com`. -/
theorem c10_validate_accepts_has_permission_denies_witness :
    (PermissionManager.validate_network_permission [] [("p".toList,
      [{ plugin_id := "p".toList, permission_type := PermissionType.NetworkRequest,
         resource_scope := '*' :: '.' :: "example.com".toList, granted := true }])]
      "p".toList ("api".toList ++ '.' :: "example.com".toList)).1 = true ∧
    PermissionManager.has_permission [("p".toList,
      [{ plugin_id := "p".toList, permission_type := PermissionType.NetworkRequest,
         resource_scope := '*' :: '.' :: "example.com".toList, granted := true }])]
      "p".toList ("network.request:".toList ++ ("api".toList ++ '.' :: "example.com".toList))
      = false :=
  c10_validate_accepts_has_permission_denies "api".toList "example.com".toList "p".toList []
    (by decide) (by decide) (by decide)

/-- Helper: the validation loop succeeds exactly when every element
validates. -/
theorem firstErr_ok_iff {α : Type} (f : α → Except PluginError Unit) (l : List α) :
    firstErr f l = .ok () ↔ ∀ x ∈ l, f x = .ok () := by
  induction l with
  | nil => simp [firstErr]
  | cons a l ih =>
    unfold firstErr
    cases hfa : f a with
    | error e => simp [hfa]
    | ok u =>
      cases u
      simp [hfa, ih]

/-- C8: `validate` succeeds only if both versions are `X.Y.Z` with decimal
integer components and every activation event parses; a manifest with a
bad version or an unrecognized activation event is rejected with an error;
and an activation event parses exactly when its type part is one of the
five recognized types, with a value present where one is required. -/
theorem c8_validate_versions_and_events :
    ∀ (m : PluginManifest),
      (m.validate = .ok () →
        is_valid_version m.manifest_version = true ∧ is_valid_version m.version = true ∧
        ∀ e ∈ m.activation_events, ∃ ev, ActivationEvent.from_str e = .ok ev) ∧
      ((is_valid_version m.manifest_version = false ∨ is_valid_version m.version = false ∨
          (∃ e ∈ m.activation_events, ∀ ev, ActivationEvent.from_str e ≠ .ok ev)) →
        ∃ err, m.validate = .error err) ∧
      (∀ s : Str, (∃ ev, ActivationEvent.from_str s = .ok ev) ↔
        ((StrOps.splitFirst ':' s).1 = "onStartupFinished".toList ∨
          ((StrOps.splitFirst ':' s).1 ∈ ["onCommand".toList, "onView".toList,
            "onLanguage".toList, "onFileOpen".toList] ∧ (StrOps.splitFirst ':' s).2.isSome))) := by
  intro m
  have hmain : m.validate = .ok () →
      is_valid_version m.manifest_version = true ∧ is_valid_version m.version = true ∧
      ∀ e ∈ m.activation_events, ∃ ev, ActivationEvent.from_str e = .ok ev := by
    intro h
    unfold PluginManifest.validate at h
    split_ifs at h with h1 h2 h3 h4 h5 h6 h7
    refine ⟨by simpa using h4, by simpa using h5, ?_⟩
    cases hev : firstErr (fun e => (ActivationEvent.from_str e).map (fun _ => ()))
        m.activation_events with
    | error e => rw [hev] at h; exact absurd h (by simp)
    | ok u =>
      cases u
      intro e he
      have := (firstErr_ok_iff _ _).mp hev e he
      cases hfe : ActivationEvent.from_str e with
      | error err => rw [hfe] at this; exact absurd this (by simp [Except.map])
      | ok ev => exact ⟨ev, rfl⟩
  refine ⟨hmain, ?_, ?_⟩
  · intro hbad
    cases hv : m.validate with
    | error err => exact ⟨err, rfl⟩
    | ok u =>
      cases u
      obtain ⟨hv1, hv2, hv3⟩ := hmain hv
      rcases hbad with h | h | ⟨e, he, hall⟩
      · rw [hv1] at h; cases h
      · rw [hv2] at h; cases h
      · obtain ⟨ev, hev⟩ := hv3 e he
        exact (hall ev hev).elim
  · intro s
    simp only [ActivationEvent.from_str]
    by_cases h1 : (StrOps.splitFirst ':' s).1 = "onCommand".toList
    · rw [if_pos h1]
      cases hp : (StrOps.splitFirst ':' s).2 <;> simp [h1, hp]
    · rw [if_neg h1]
      by_cases h2 : (StrOps.splitFirst ':' s).1 = "onView".toList
      · rw [if_pos h2]
        cases hp : (StrOps.splitFirst ':' s).2 <;> simp [h1, h2, hp]
      · rw [if_neg h2]
        by_cases h3 : (StrOps.splitFirst ':' s).1 = "onStartupFinished".toList
        · rw [if_pos h3]
          simp [h1, h2, h3]
        · rw [if_neg h3]
          by_cases h4 : (StrOps.splitFirst ':' s).1 = "onLanguage".toList
          · rw [if_pos h4]
            cases hp : (StrOps.splitFirst ':' s).2 <;> simp [h1, h2, h3, h4, hp]
          · rw [if_neg h4]
            by_cases h5 : (StrOps.splitFirst ':' s).1 = "onFileOpen".toList
            · rw [if_pos h5]
              cases hp : (StrOps.splitFirst ':' s).2 <;> simp [h1, h2, h3, h4, h5, hp]
            · rw [if_neg h5]
              simp only [List.mem_cons, List.mem_singleton]
              constructor
              · rintro ⟨ev, hev⟩
                exact absurd hev (by simp)
              · rintro (hx | ⟨hx | hx | hx | hx | hx, hs⟩)
                · exact absurd hx h3
                · exact absurd hx h1
                · exact absurd hx h2
                · exact absurd hx h4
                · exact absurd hx h5
                · cases hx

/-- C8 witness: a concrete valid manifest passes and its versions and
events satisfy the conclusion; instantiated through the theorem. -/
theorem c8_validate_versions_and_events_witness :
    is_valid_version "1.0.0".toList = true ∧
    (∃ ev, ActivationEvent.from_str "onCommand:p.run".toList = .ok ev) := by
  have hm := c8_validate_versions_and_events
    { manifest_version := "1.0.0".toList, name := "p".toList, display_name := "P".toList,
      version := "1.0.0".toList, description := "d".toList, author := "a".toList,
      plugin_type := "synchronous".toList, main := "index.js".toList,
      activation_events := ["onCommand:p.run".toList], permissions := [],
      contributes := { commands := [], views := [], events := [], keybindings := [] },
      engines := [], dependencies := [] }
  have hok := hm.1 (by rfl)
  exact ⟨hok.1, hok.2.2 "onCommand:p.run".toList (by decide)⟩

/-- Helper: looking up the key just written by `assocPut` yields the new
value. -/
theorem assocGet_assocPut_self {α : Type} :
    ∀ (l : List (Str × α)) (k : Str) (v : α), assocGet (assocPut l k v) k = some v := by
  intro l k v
  unfold assocPut
  by_cases h : (l.find? (fun p => p.1 = k)).isSome
  · rw [if_pos h]
    revert h
    induction l with
    | nil =>
      intro h
      simp [List.find?] at h
    | cons a l ih =>
      intro h
      by_cases ha : a.1 = k
      · unfold assocGet
        rw [List.map_cons]
        rw [show (if a.1 = k then (k, v) else a) = (k, v) from if_pos ha]
        rw [List.find?_cons_of_pos _ (by simp)]
        rfl
      · unfold assocGet
        rw [List.map_cons]
        rw [show (if a.1 = k then (k, v) else a) = a from if_neg ha]
        rw [List.find?_cons_of_neg _ (by simpa using ha)]
        have h2 : (l.find? (fun p => (p.1 : Str) = k)).isSome := by
          rwa [List.find?_cons_of_neg _ (by simpa using ha)] at h
        exact ih h2
  · rw [if_neg h]
    revert h
    induction l with
    | nil =>
      intro h
      unfold assocGet
      rw [List.nil_append, List.find?_cons_of_pos _ (by simp)]
      rfl
    | cons a l ih =>
      intro h
      have ha : ¬ (a.1 = k) := by
        intro hc
        exact h (by rw [List.find?_cons_of_pos _ (by simpa using hc)]; rfl)
      unfold assocGet
      rw [List.cons_append, List.find?_cons_of_neg _ (by simpa using ha)]
      have h2 : ¬ (l.find? (fun p => (p.1 : Str) = k)).isSome := by
        intro hc
        apply h
        rwa [List.find?_cons_of_neg _ (by simpa using ha)]
      exact ih h2

/-- C7: after a successful `set` of a non-empty key, `get` of the same
key returns the encoded value (parse as JSON, store the matching variant,
re-serialize); `set` with the empty key is rejected. -/
theorem c7_storage_round_trip :
    ∀ (w : StoreWorld) (mem : StorageMem) (plugin_id key value : Str),
      (key ≠ [] →
        ∀ mem2, StorageAPI.set w mem plugin_id key value = (.ok (), mem2) →
          (StorageAPI.get w mem2 plugin_id key).1
            = .ok (some (StorageAPI.encode w value))) ∧
      (StorageAPI.set w mem plugin_id [] value).1
        = .error (.permissionDenied "Storage key cannot be empty".toList) := by
  intro w mem plugin_id key value
  constructor
  · intro hk mem2 hset
    unfold StorageAPI.set at hset
    rw [if_neg hk] at hset
    split at hset
    next e heq => exact absurd (congrArg Prod.fst hset) (by simp)
    next mem1 heq =>
      split at hset
      next hgd => exact absurd (congrArg Prod.fst hset) (by simp)
      next plugin_data hgd =>
        split at hset
        next hsave =>
          have hmem2 : assocPut mem1 plugin_id
              (assocPut plugin_data key (StorageAPI.valueOfRaw w value)) = mem2 := by
            simpa using congrArg Prod.snd hset
          rw [← hmem2]
          unfold StorageAPI.get StorageAPI.ensure_loaded
          rw [if_pos (by rw [assocGet_assocPut_self]; rfl)]
          dsimp only
          rw [assocGet_assocPut_self]
          dsimp only
          rw [assocGet_assocPut_self]
          rfl
        next hsave => exact absurd (congrArg Prod.fst hset) (by simp)
  · unfold StorageAPI.set
    rw [if_pos rfl]

/-- Concrete storage world for the witness: every raw value fails JSON
parsing (and is therefore stored as a string), serialization of a string
is the string itself. -/
def demoStoreWorld : StoreWorld :=
  { parse := fun _ => none,
    serialize := fun j => match j with | .str s => s | _ => [],
    diskLoad := fun _ => some [],
    saveOk := fun _ => true }

/-- C7 witness: set then get of key `k` with raw value `v1` returns the
encoded value, via the theorem at a concrete world and store. -/
theorem c7_storage_round_trip_witness :
    (StorageAPI.get demoStoreWorld
        (StorageAPI.set demoStoreWorld [] "p".toList "k".toList "v1".toList).2
        "p".toList "k".toList).1
      = .ok (some (StorageAPI.encode demoStoreWorld "v1".toList)) :=
  (c7_storage_round_trip demoStoreWorld [] "p".toList "k".toList "v1".toList).1
    (by decide) _ rfl

/-- C1: `validate_path` rejects every path containing a parent-dir
component and every absolute path with PermissionDenied, and whenever it
accepts, the returned canonical path extends the canonicalized AppData
root. -/
theorem c1_validate_path_confinement :
    ∀ (w : FsWorld) (ps : Permissions) (plugin_id : Str) (path : RPath) (write : Bool),
      (PathComp.parentDir ∈ path →
        ∃ msg, (FileSystemAPI.validate_path w ps plugin_id path write).1
          = .error (.permissionDenied msg)) ∧
      (RPath.isAbsolute path = true →
        ∃ msg, (FileSystemAPI.validate_path w ps plugin_id path write).1
          = .error (.permissionDenied msg)) ∧
      (∀ canonical_path,
        (FileSystemAPI.validate_path w ps plugin_id path write).1 = .ok canonical_path →
        ∃ canonical_app_data, w.canon w.appData = some canonical_app_data ∧
          canonical_app_data <+: canonical_path) := by
  intro w ps plugin_id path write
  refine ⟨?_, ?_, ?_⟩
  · intro hmem
    refine ⟨"Path traversal attempt (..) detected".toList, ?_⟩
    unfold FileSystemAPI.validate_path
    rw [if_pos hmem]
  · intro habs
    by_cases hmem : PathComp.parentDir ∈ path
    · refine ⟨"Path traversal attempt (..) detected".toList, ?_⟩
      unfold FileSystemAPI.validate_path
      rw [if_pos hmem]
    · refine ⟨"Absolute paths not allowed, use relative paths within AppData".toList, ?_⟩
      unfold FileSystemAPI.validate_path
      rw [if_neg hmem, if_pos habs]
  · intro canonical_path h
    unfold FileSystemAPI.validate_path at h
    by_cases hmem : PathComp.parentDir ∈ path
    · rw [if_pos hmem] at h
      exact absurd h (by simp)
    · rw [if_neg hmem] at h
      by_cases habs : RPath.isAbsolute path = true
      · rw [if_pos habs] at h
        exact absurd h (by simp)
      · rw [if_neg habs] at h
        cases hca : w.canon w.appData with
        | none =>
          rw [hca] at h
          exact absurd h (by simp)
        | some canonical_app_data =>
          rw [hca] at h
          refine ⟨canonical_app_data, rfl, ?_⟩
          split at h
          next heq => exact absurd heq (by simp)
          next cad heq =>
            injection heq with heq2
            subst heq2
            dsimp only at h
            split at h
            next e heq3 => exact absurd h (by simp)
            next cpath heq3 =>
              by_cases hpre : canonical_app_data.isPrefixOf cpath = true
              · rw [if_pos hpre] at h
                by_cases hperm : (PermissionManager.validate_filesystem_permission w ps
                    plugin_id cpath write).1 = true
                · rw [if_pos hperm] at h
                  have hcp : cpath = canonical_path := by simpa using h
                  rw [← hcp]
                  exact List.isPrefixOf_iff_prefix.mp hpre
                · rw [if_neg hperm] at h
                  exact absurd h (by simp)
              · rw [if_neg hpre] at h
                exact absurd h (by simp)

/-- Filesystem world used by the C1 and C5 witnesses: one AppData
directory, identity canonicalization, nothing on disk. -/
def demoFsWorld : FsWorld :=
  { appData := [PathComp.normal "AppData".toList],
    exists? := fun _ => false,
    canon := fun p => some p,
    readFile := fun _ => some "hello".toList,
    now := [] }

/-- Permission store used by the C1 and C5 witnesses: plugin `p` holds
`filesystem.read` scope `*`. -/
def demoReadPerms : Permissions :=
  [("p".toList, [{ plugin_id := "p".toList,
                   permission_type := PermissionType.FilesystemRead,
                   resource_scope := "*".toList, granted := true }])]

/-- C1 witness: the theorem instantiated at a traversal path, an absolute
path, and an accepted relative path. -/
theorem c1_validate_path_confinement_witness :
    (∃ msg, (FileSystemAPI.validate_path demoFsWorld demoReadPerms "p".toList
      [PathComp.parentDir, PathComp.normal "secret.txt".toList] false).1
        = .error (.permissionDenied msg)) ∧
    (∃ msg, (FileSystemAPI.validate_path demoFsWorld demoReadPerms "p".toList
      [PathComp.rootDir, PathComp.normal "etc".toList] false).1
        = .error (.permissionDenied msg)) ∧
    (∃ canonical_app_data, demoFsWorld.canon demoFsWorld.appData = some canonical_app_data ∧
      canonical_app_data <+: [PathComp.normal "AppData".toList,
        PathComp.normal "notes.txt".toList]) := by
  refine ⟨?_, ?_, ?_⟩
  · exact (c1_validate_path_confinement demoFsWorld demoReadPerms "p".toList
      [PathComp.parentDir, PathComp.normal "secret.txt".toList] false).1 (by decide)
  · exact (c1_validate_path_confinement demoFsWorld demoReadPerms "p".toList
      [PathComp.rootDir, PathComp.normal "etc".toList] false).2.1 (by decide)
  · exact (c1_validate_path_confinement demoFsWorld demoReadPerms "p".toList
      [PathComp.normal "notes.txt".toList] false).2.2
      [PathComp.normal "AppData".toList, PathComp.normal "notes.txt".toList] (by rfl)

/-- C5 counterexample: with `filesystem.read` scope `*` granted to plugin
`p`, reading `../outside.txt` is rejected with PermissionDenied —
but the call emits NO audit entry at all (the traversal rejection in
`validate_path` precedes every logging statement), contradicting the
claimed `result=false` audit entry. -/
theorem c5_traversal_no_audit_counterexample :
    (FileSystemAPI.read_file demoFsWorld demoReadPerms "p".toList
      [PathComp.parentDir, PathComp.normal "outside.txt".toList]).1
      = .error (.permissionDenied "Path traversal attempt (..) detected".toList) ∧
    (FileSystemAPI.read_file demoFsWorld demoReadPerms "p".toList
      [PathComp.parentDir, PathComp.normal "outside.txt".toList]).2 = [] := by
  constructor <;> rfl

/-- C5 (amended): with any permissions (in particular `filesystem.read`
scope `*`), `read_file` on a path containing a parent-dir component
returns PermissionDenied, and no audit entry is emitted for that
rejection. -/
theorem c5_traversal_rejected_without_audit :
    ∀ (w : FsWorld) (ps : Permissions) (plugin_id : Str) (path : RPath),
      PathComp.parentDir ∈ path →
      (FileSystemAPI.read_file w ps plugin_id path).1
        = .error (.permissionDenied "Path traversal attempt (..) detected".toList) ∧
      (FileSystemAPI.read_file w ps plugin_id path).2 = [] := by
  intro w ps plugin_id path hmem
  have hv : FileSystemAPI.validate_path w ps plugin_id path false
      = (.error (.permissionDenied "Path traversal attempt (..) detected".toList), []) := by
    unfold FileSystemAPI.validate_path
    rw [if_pos hmem]
  unfold FileSystemAPI.read_file
  rw [hv]
  exact ⟨rfl, rfl⟩

/-- C5 witness: the amended theorem at the concrete world, store and the
path `../outside.txt`. -/
theorem c5_traversal_rejected_without_audit_witness :
    (FileSystemAPI.read_file demoFsWorld demoReadPerms "p".toList
      [PathComp.parentDir, PathComp.normal "secret2.txt".toList]).1
      = .error (.permissionDenied "Path traversal attempt (..) detected".toList) ∧
    (FileSystemAPI.read_file demoFsWorld demoReadPerms "p".toList
      [PathComp.parentDir, PathComp.normal "secret2.txt".toList]).2 = [] :=
  c5_traversal_rejected_without_audit demoFsWorld demoReadPerms "p".toList
    [PathComp.parentDir, PathComp.normal "secret2.txt".toList] (by decide)

/-- Helper: a request that returns Ok passed the URL-host extraction, the
domain validation, and the rate-limit check. -/
theorem request_ok_guards (w : NetWorld) (ps : Permissions) (plugin_id : Str)
    (req : HttpRequest) (st : ProxyState) (resp : HttpResponse)
    (hok : (NetworkProxy.request w ps plugin_id req st).result = .ok resp) :
    ∃ domain, w.parseHost req.url = some domain ∧
      (PermissionManager.validate_network_permission w.nowStr ps plugin_id domain).1 = true ∧
      (NetworkProxy.check_rate_limit w.now st.limiters plugin_id).1 = true := by
  cases hd : w.parseHost req.url with
  | none =>
    unfold NetworkProxy.request at hok
    rw [hd] at hok
    exact absurd hok (by simp)
  | some domain =>
    refine ⟨domain, rfl, ?_⟩
    unfold NetworkProxy.request at hok
    rw [hd] at hok
    dsimp only at hok
    by_cases hv : (PermissionManager.validate_network_permission w.nowStr ps
        plugin_id domain).1 = true
    · refine ⟨hv, ?_⟩
      rw [if_pos hv] at hok
      by_cases hrl : (NetworkProxy.check_rate_limit w.now st.limiters plugin_id).1 = true
      · exact hrl
      · rw [if_neg hrl] at hok
        exact absurd hok (by simp)
    · rw [if_neg hv] at hok
      exact absurd hok (by simp)

/-- Helper: once the guards pass, every later outcome carries the
limiter map produced by the rate-limit check. -/
theorem request_limiters_after (w : NetWorld) (ps : Permissions) (plugin_id : Str)
    (req : HttpRequest) (st : ProxyState) (domain : Str)
    (hd : w.parseHost req.url = some domain)
    (hv : (PermissionManager.validate_network_permission w.nowStr ps plugin_id domain).1 = true)
    (hrl : (NetworkProxy.check_rate_limit w.now st.limiters plugin_id).1 = true) :
    (NetworkProxy.request w ps plugin_id req st).state.limiters
      = (NetworkProxy.check_rate_limit w.now st.limiters plugin_id).2 := by
  unfold NetworkProxy.request
  rw [hd]
  dsimp only
  rw [if_pos hv, if_pos hrl]
  cases hhit : (if req.method = HttpMethod.Get then
      NetworkProxy.get_cached w.now
        ({ st with limiters := (NetworkProxy.check_rate_limit w.now st.limiters plugin_id).2
          : ProxyState }).cache req
    else (none, ({ st with
      limiters := (NetworkProxy.check_rate_limit w.now st.limiters plugin_id).2
        : ProxyState }).cache)) with
  | mk hit1 hit2 =>
    dsimp only
    cases hit1 with
    | some cached => rfl
    | none =>
      cases req.method <;> dsimp only <;>
        first
          | rfl
          | (cases w.send req (req.timeout_secs.getD 30 ⊓ 300) <;> dsimp only <;>
              first
                | rfl
                | (split <;> rfl))

/-- C3: an Ok result of the network pipeline (cached included) implies the
host parsed, matched a granted scope and a rate-limit token was consumed
(the limiter map in the final state is the post-consumption map, whose
bucket lost one token relative to its refilled state); a domain-check or
rate-limit failure yields PermissionDenied with no HTTP request issued. -/
theorem c3_request_guards :
    ∀ (w : NetWorld) (ps : Permissions) (plugin_id : Str) (req : HttpRequest) (st : ProxyState),
      (∀ resp, (NetworkProxy.request w ps plugin_id req st).result = .ok resp →
        ∃ domain, w.parseHost req.url = some domain ∧
          (PermissionManager.validate_network_permission w.nowStr ps plugin_id domain).1 = true ∧
          (NetworkProxy.check_rate_limit w.now st.limiters plugin_id).1 = true ∧
          (NetworkProxy.request w ps plugin_id req st).state.limiters
            = (NetworkProxy.check_rate_limit w.now st.limiters plugin_id).2) ∧
      (∀ (now : Rat) (limiters : List (Str × TokenBucket)) (pid : Str),
        (NetworkProxy.check_rate_limit now limiters pid).1 = true →
          1 ≤ (TokenBucket.refill now ((assocGet limiters pid).getD
                (TokenBucket.new 100 (100 / 60) now))).tokens ∧
          assocGet (NetworkProxy.check_rate_limit now limiters pid).2 pid
            = some { TokenBucket.refill now ((assocGet limiters pid).getD
                  (TokenBucket.new 100 (100 / 60) now)) with
                tokens := (TokenBucket.refill now ((assocGet limiters pid).getD
                  (TokenBucket.new 100 (100 / 60) now))).tokens - 1 }) ∧
      (w.parseHost req.url = none →
        (NetworkProxy.request w ps plugin_id req st).result
          = .error (.permissionDenied "Invalid URL or URL has no host".toList) ∧
        (NetworkProxy.request w ps plugin_id req st).httpIssued = false) ∧
      (∀ domain, w.parseHost req.url = some domain →
        (PermissionManager.validate_network_permission w.nowStr ps plugin_id domain).1 = false →
        (NetworkProxy.request w ps plugin_id req st).result
          = .error (.permissionDenied "No network permission for domain".toList) ∧
        (NetworkProxy.request w ps plugin_id req st).httpIssued = false) ∧
      (∀ domain, w.parseHost req.url = some domain →
        (PermissionManager.validate_network_permission w.nowStr ps plugin_id domain).1 = true →
        (NetworkProxy.check_rate_limit w.now st.limiters plugin_id).1 = false →
        (NetworkProxy.request w ps plugin_id req st).result
          = .error (.permissionDenied "Rate limit exceeded (100 req per min)".toList) ∧
        (NetworkProxy.request w ps plugin_id req st).httpIssued = false) := by
  intro w ps plugin_id req st
  refine ⟨?_, ?_, ?_, ?_, ?_⟩
  · intro resp hok
    obtain ⟨domain, hd, hv, hrl⟩ := request_ok_guards w ps plugin_id req st resp hok
    exact ⟨domain, hd, hv, hrl, request_limiters_after w ps plugin_id req st domain hd hv hrl⟩
  · intro now limiters pid hrl
    unfold NetworkProxy.check_rate_limit at hrl ⊢
    dsimp only at hrl ⊢
    unfold TokenBucket.try_consume at hrl ⊢
    by_cases hge : (1 : Rat) ≤ (TokenBucket.refill now ((assocGet limiters pid).getD
        (TokenBucket.new 100 (100 / 60) now))).tokens
    · refine ⟨hge, ?_⟩
      rw [if_pos hge]
      dsimp only
      rw [assocGet_assocPut_self]
    · rw [if_neg hge] at hrl
      exact absurd hrl (by simp)
  · intro hd
    unfold NetworkProxy.request
    rw [hd]
    exact ⟨rfl, rfl⟩
  · intro domain hd hv
    unfold NetworkProxy.request
    rw [hd]
    dsimp only
    rw [if_neg (by simp [hv])]
    exact ⟨rfl, rfl⟩
  · intro domain hd hv hrl
    unfold NetworkProxy.request
    rw [hd]
    dsimp only
    rw [if_pos hv, if_neg (by simp [hrl])]
    exact ⟨rfl, rfl⟩

/-- Network world for the C3 witness: URL parsing always fails to produce
a host. -/
def demoNetWorld : NetWorld :=
  { parseHost := fun _ => none,
    send := fun _ _ => .error [],
    now := 0,
    nowStr := [] }

/-- Request used by the C3 witness. -/
def demoReq : HttpRequest :=
  { url := "not a url".toList, method := HttpMethod.Get, headers := [],
    body := none, timeout_secs := none }

/-- C3 witness: with a host-less URL the pipeline returns PermissionDenied
and no HTTP request is issued, via the theorem at concrete inputs. -/
theorem c3_request_guards_witness :
    (NetworkProxy.request demoNetWorld [] "p".toList demoReq ⟨[], []⟩).result
      = .error (.permissionDenied "Invalid URL or URL has no host".toList) ∧
    (NetworkProxy.request demoNetWorld [] "p".toList demoReq ⟨[], []⟩).httpIssued = false :=
  (c3_request_guards demoNetWorld [] "p".toList demoReq ⟨[], []⟩).2.2.1 rfl

namespace PluginManager

/-- Dependency keys of a node in the registry graph (empty for an
unregistered id). -/
def depsOf (r : ManifestRegistry) (id : Str) : List Str :=
  match r.get_manifest id with
  | some manifest => depKeys manifest
  | none => []

/-- The dependency edge relation of the registry. -/
def Edge (r : ManifestRegistry) (a b : Str) : Prop := b ∈ depsOf r a

/-- Reachability along dependency edges. -/
def Reaches (r : ManifestRegistry) : Str → Str → Prop := Relation.ReflTransGen (Edge r)

/-- A node has a manifest in the registry. -/
def Registered (r : ManifestRegistry) (x : Str) : Prop := (r.get_manifest x).isSome

/-- Every node reachable from the root is registered. -/
def FullyRegistered (r : ManifestRegistry) (root : Str) : Prop :=
  ∀ x, Reaches r root x → Registered r x

/-- Some node reachable from the root lies on a dependency cycle. -/
def HasCycle (r : ManifestRegistry) (root : Str) : Prop :=
  ∃ x, Reaches r root x ∧ Relation.TransGen (Edge r) x x

/-- Position of the first occurrence of an element in a list (the length
when absent). -/
def posOf : List Str → Str → Nat
  | [], _ => 0
  | a :: l, x => if a = x then 0 else posOf l x + 1

/-- Prepending keeps positions of members of the left part. -/
theorem posOf_append_of_mem {l₁ : List Str} {x : Str} (l₂ : List Str) (h : x ∈ l₁) :
    posOf (l₁ ++ l₂) x = posOf l₁ x := by
  induction l₁ with
  | nil => cases h
  | cons a l ih =>
    by_cases ha : a = x
    · simp [posOf, ha]
    · rcases List.mem_cons.mp h with h' | h'
      · exact absurd h'.symm ha
      · simp [posOf, ha, ih h']

/-- Positions in the right part are shifted by the length of the left
part when the element is absent from it. -/
theorem posOf_append_of_not_mem {l₁ : List Str} {x : Str} (l₂ : List Str) (h : x ∉ l₁) :
    posOf (l₁ ++ l₂) x = l₁.length + posOf l₂ x := by
  induction l₁ with
  | nil => simp [posOf]
  | cons a l ih =>
    have ha : ¬ (a = x) := fun hc => h (hc ▸ List.mem_cons_self a l)
    have h' : x ∉ l := fun hc => h (List.mem_cons_of_mem a hc)
    simp [posOf, ha, ih h']
    omega

/-- Members sit at a position below the length. -/
theorem posOf_lt_length {l : List Str} {x : Str} : x ∈ l → posOf l x < l.length := by
  induction l with
  | nil => intro h; cases h
  | cons a l ih =>
    intro h
    by_cases ha : a = x
    · simp [posOf, ha]
    · rcases List.mem_cons.mp h with h' | h'
      · exact absurd h'.symm ha
      · simp only [posOf, ha, if_false, List.length_cons]
        exact Nat.succ_lt_succ (ih h')

/-- The invariant the depth-first traversal maintains: marks are
duplicate-free, permanent marks coincide with the output order, all marks
are reachable from the root, temporary and permanent marks are disjoint,
the permanently marked set is closed under dependencies, and the order is
topologically sorted. -/
structure DfsInv (r : ManifestRegistry) (root : Str) (st : VisitState) : Prop where
  temp_nodup : st.temp_mark.Nodup
  order_nodup : st.order.Nodup
  vis_order : ∀ x, x ∈ st.visited ↔ x ∈ st.order
  vis_reach : ∀ x ∈ st.visited, Reaches r root x
  temp_reach : ∀ x ∈ st.temp_mark, Reaches r root x
  disj : ∀ x ∈ st.temp_mark, x ∉ st.visited
  closed : ∀ x ∈ st.visited, ∀ d ∈ depsOf r x, d ∈ st.visited
  topo : ∀ a ∈ st.order, ∀ d ∈ depsOf r a, d ∈ st.order ∧
    posOf st.order d < posOf st.order a

/-- The invariant of the empty starting state. -/
theorem DfsInv.initial (r : ManifestRegistry) (root : Str) :
    DfsInv r root ⟨[], [], []⟩ := by
  refine ⟨List.nodup_nil, List.nodup_nil, ?_, ?_, ?_, ?_, ?_, ?_⟩ <;> simp

/-- Soundness of the visitor: from an invariant state, a successful visit
of a reachable node yields an invariant state with the same temporary
marks, a larger permanently marked set, an extended order, and the node
permanently marked. -/
theorem visit_sound (r : ManifestRegistry) (root : Str) :
    ∀ (fuel : Nat) (id : Str) (st st' : VisitState),
      DfsInv r root st → Reaches r root id →
      visit_dependency r fuel id st = some (.ok st') →
      DfsInv r root st' ∧ st'.temp_mark = st.temp_mark ∧
        (∀ x, x ∈ st.visited → x ∈ st'.visited) ∧
        (∃ ext, st'.order = st.order ++ ext) ∧
        id ∈ st'.visited := by
  intro fuel
  induction fuel with
  | zero =>
    intro id st st' _ _ h
    simp [visit_dependency] at h
  | succ fuel ih =>
    have hfold : ∀ (deps : List Str) (st st' : VisitState),
        DfsInv r root st → (∀ d ∈ deps, Reaches r root d) →
        foldVisit (visit_dependency r fuel) deps st = some (.ok st') →
        DfsInv r root st' ∧ st'.temp_mark = st.temp_mark ∧
          (∀ x, x ∈ st.visited → x ∈ st'.visited) ∧
          (∃ ext, st'.order = st.order ++ ext) ∧
          (∀ d ∈ deps, d ∈ st'.visited) := by
      intro deps
      induction deps with
      | nil =>
        intro st st' hinv _ h
        have hss : st = st' := by simpa [foldVisit] using h
        subst hss
        exact ⟨hinv, rfl, fun x hx => hx, ⟨[], by simp⟩, by simp⟩
      | cons d ds ihd =>
        intro st st' hinv hreach h
        unfold foldVisit at h
        cases hv : visit_dependency r fuel d st with
        | none => rw [hv] at h; exact absurd h (by simp)
        | some res =>
          rw [hv] at h
          cases res with
          | error e => exact absurd h (by simp)
          | ok st1 =>
            obtain ⟨hinv1, htemp1, hmono1, ⟨ext1, hord1⟩, hd1⟩ :=
              ih d st st1 hinv (hreach d (by simp)) hv
            obtain ⟨hinv2, htemp2, hmono2, ⟨ext2, hord2⟩, hds⟩ :=
              ihd st1 st' hinv1 (fun x hx => hreach x (by simp [hx])) h
            refine ⟨hinv2, htemp2.trans htemp1, fun x hx => hmono2 x (hmono1 x hx),
              ⟨ext1 ++ ext2, by rw [hord2, hord1, List.append_assoc]⟩, ?_⟩
            intro x hx
            rcases List.mem_cons.mp hx with hx' | hx'
            · exact hx' ▸ hmono2 d hd1
            · exact hds x hx'
    intro id st st' hinv hreach h
    unfold visit_dependency at h
    by_cases hvis : id ∈ st.visited
    · rw [if_pos hvis] at h
      have hss : st = st' := by simpa using h
      subst hss
      exact ⟨hinv, rfl, fun x hx => hx, ⟨[], by simp⟩, hvis⟩
    · rw [if_neg hvis] at h
      by_cases htmp : id ∈ st.temp_mark
      · rw [if_pos htmp] at h
        exact absurd h (by simp)
      · rw [if_neg htmp] at h
        cases hman : r.get_manifest id with
        | none => rw [hman] at h; exact absurd h (by simp)
        | some manifest =>
          rw [hman] at h
          dsimp only at h
          cases hfoldres : foldVisit (visit_dependency r fuel) (depKeys manifest)
              { st with temp_mark := id :: st.temp_mark } with
          | none => rw [hfoldres] at h; exact absurd h (by simp)
          | some res =>
            rw [hfoldres] at h
            cases res with
            | error e => exact absurd h (by simp)
            | ok st2 =>
              have hst' : st' =
                  { order := st2.order ++ [id], visited := id :: st2.visited,
                    temp_mark := st2.temp_mark.erase id } := by
                simp only [Option.some.injEq, Except.ok.injEq] at h
                exact h.symm
              have hdeps_eq : depsOf r id = depKeys manifest := by
                unfold depsOf
                rw [hman]
              have hdepsreach : ∀ d ∈ depKeys manifest, Reaches r root d := by
                intro d hd
                refine Relation.ReflTransGen.tail hreach ?_
                show Edge r id d
                unfold Edge
                rw [hdeps_eq]
                exact hd
              have hinv1 : DfsInv r root { st with temp_mark := id :: st.temp_mark } := by
                refine ⟨List.nodup_cons.mpr ⟨htmp, hinv.temp_nodup⟩, hinv.order_nodup,
                  hinv.vis_order, hinv.vis_reach, ?_, ?_, hinv.closed, hinv.topo⟩
                · intro x hx
                  rcases List.mem_cons.mp hx with hx' | hx'
                  · exact hx' ▸ hreach
                  · exact hinv.temp_reach x hx'
                · intro x hx
                  rcases List.mem_cons.mp hx with hx' | hx'
                  · exact hx' ▸ hvis
                  · exact hinv.disj x hx'
              obtain ⟨hinv2, htemp2, hmono2, ⟨ext, hord⟩, hds⟩ :=
                hfold (depKeys manifest) { st with temp_mark := id :: st.temp_mark } st2
                  hinv1 hdepsreach hfoldres
              have hid_temp2 : id ∈ st2.temp_mark := by
                rw [htemp2]
                simp
              have hid_nvis2 : id ∉ st2.visited := hinv2.disj id hid_temp2
              have hid_nord2 : id ∉ st2.order := fun hx => hid_nvis2 ((hinv2.vis_order id).mpr hx)
              have htemp_final : st2.temp_mark.erase id = st.temp_mark := by
                rw [htemp2, List.erase_cons_head]
              have hmono_st : ∀ x, x ∈ st.visited → x ∈ st2.visited := hmono2
              have hinv' : DfsInv r root
                  { order := st2.order ++ [id], visited := id :: st2.visited,
                    temp_mark := st2.temp_mark.erase id } := by
                refine ⟨?_, ?_, ?_, ?_, ?_, ?_, ?_, ?_⟩
                · rw [htemp_final]
                  exact hinv.temp_nodup
                · rw [List.nodup_append]
                  exact ⟨hinv2.order_nodup, List.nodup_singleton id,
                    fun a ha hb => by
                      rw [List.mem_singleton] at hb
                      exact hid_nord2 (hb ▸ ha)⟩
                · intro x
                  constructor
                  · intro hx
                    rcases List.mem_cons.mp hx with hx' | hx'
                    · subst hx'
                      simp
                    · simp [(hinv2.vis_order x).mp hx']
                  · intro hx
                    rcases List.mem_append.mp hx with hx' | hx'
                    · exact List.mem_cons_of_mem id ((hinv2.vis_order x).mpr hx')
                    · rw [List.mem_singleton] at hx'
                      exact hx' ▸ List.mem_cons_self id st2.visited
                · intro x hx
                  rcases List.mem_cons.mp hx with hx' | hx'
                  · exact hx' ▸ hreach
                  · exact hinv2.vis_reach x hx'
                · intro x hx
                  rw [htemp_final] at hx
                  exact hinv.temp_reach x hx
                · intro x hx
                  rw [htemp_final] at hx
                  intro hmem
                  rcases List.mem_cons.mp hmem with hx' | hx'
                  · exact htmp (hx' ▸ hx)
                  · exact hinv2.disj x (by rw [htemp2]; exact List.mem_cons_of_mem id hx) hx'
                · intro x hx d hd
                  rcases List.mem_cons.mp hx with hx' | hx'
                  · subst hx'
                    rw [hdeps_eq] at hd
                    exact List.mem_cons_of_mem x (hds d hd)
                  · exact List.mem_cons_of_mem id (hinv2.closed x hx' d hd)
                · intro a ha d hd
                  dsimp only at ha ⊢
                  rcases List.mem_append.mp ha with ha' | ha'
                  · obtain ⟨hdo, hlt⟩ := hinv2.topo a ha' d hd
                    refine ⟨List.mem_append_left _ hdo, ?_⟩
                    rw [posOf_append_of_mem [id] hdo, posOf_append_of_mem [id] ha']
                    exact hlt
                  · rw [List.mem_singleton] at ha'
                    subst ha'
                    rw [hdeps_eq] at hd
                    have hdo : d ∈ st2.order := (hinv2.vis_order d).mp (hds d hd)
                    refine ⟨List.mem_append_left _ hdo, ?_⟩
                    rw [posOf_append_of_mem [a] hdo, posOf_append_of_not_mem [a] hid_nord2]
                    have e3 := posOf_lt_length hdo
                    simp [posOf]
                    omega
              rw [hst']
              refine ⟨hinv', ?_, ?_, ?_, ?_⟩
              · exact htemp_final
              · intro x hx
                exact List.mem_cons_of_mem id (hmono_st x hx)
              · refine ⟨ext ++ [id], ?_⟩
                show st2.order ++ [id] = st.order ++ (ext ++ [id])
                rw [← List.append_assoc]
                have : st2.order = st.order ++ ext := hord
                rw [this]
              · exact List.mem_cons_self id st2.visited

end PluginManager

namespace PluginManager

/-- The ids registered in the registry. -/
def allIds (r : ManifestRegistry) : List Str := r.map (fun p => p.1)

/-- Registered ids appear in the id list. -/
theorem registered_mem_allIds {r : ManifestRegistry} {id : Str} (h : Registered r id) :
    id ∈ allIds r := by
  unfold Registered ManifestRegistry.get_manifest at h
  have h2 : (r.find? (fun p => p.1 = id)).isSome := by
    cases hf : r.find? (fun p => p.1 = id) with
    | none => rw [hf] at h; simp at h
    | some x => rfl
  obtain ⟨x, hx, hpx⟩ := List.find?_isSome.mp h2
  have : x.1 = id := of_decide_eq_true hpx
  exact this ▸ List.mem_map.mpr ⟨x, hx, rfl⟩

/-- The number of registered ids not yet temporarily marked: the
termination measure of the traversal. -/
def numAvail (r : ManifestRegistry) (st : VisitState) : Nat :=
  ((allIds r).toFinset \ st.temp_mark.toFinset).card

/-- Temp-marking a registered, not yet marked id strictly decreases the
measure. -/
theorem numAvail_insert_lt {r : ManifestRegistry} {st : VisitState} {id : Str}
    (hreg : Registered r id) (htmp : id ∉ st.temp_mark) :
    numAvail r { st with temp_mark := id :: st.temp_mark } < numAvail r st := by
  have hidmem : id ∈ (allIds r).toFinset \ st.temp_mark.toFinset := by
    rw [Finset.mem_sdiff]
    exact ⟨List.mem_toFinset.mpr (registered_mem_allIds hreg),
      fun hc => htmp (List.mem_toFinset.mp hc)⟩
  unfold numAvail
  dsimp only
  rw [List.toFinset_cons, Finset.sdiff_insert]
  exact Finset.card_erase_lt_of_mem hidmem

/-- Completeness of the visitor in the acyclic case: from an invariant
state, with every temp-marked node strictly reaching the visited node,
enough fuel, full registration and no reachable cycle, the visit
succeeds. -/
theorem visit_complete (r : ManifestRegistry) (root : Str)
    (hreg : FullyRegistered r root) (hacyc : ¬ HasCycle r root) :
    ∀ (fuel : Nat) (id : Str) (st : VisitState),
      DfsInv r root st → Reaches r root id →
      (∀ t ∈ st.temp_mark, Relation.TransGen (Edge r) t id) →
      numAvail r st < fuel →
      ∃ st', visit_dependency r fuel id st = some (.ok st') := by
  intro fuel
  induction fuel with
  | zero =>
    intro id st _ _ _ hlt
    omega
  | succ fuel ih =>
    have hfold : ∀ (deps : List Str) (st : VisitState),
        DfsInv r root st → (∀ d ∈ deps, Reaches r root d) →
        (∀ t ∈ st.temp_mark, ∀ d ∈ deps, Relation.TransGen (Edge r) t d) →
        numAvail r st < fuel →
        ∃ st', foldVisit (visit_dependency r fuel) deps st = some (.ok st') := by
      intro deps
      induction deps with
      | nil =>
        intro st _ _ _ _
        exact ⟨st, rfl⟩
      | cons d ds ihd =>
        intro st hinv hreach htg hfuel
        obtain ⟨st1, hst1⟩ := ih d st hinv (hreach d (by simp))
          (fun t ht => htg t ht d (by simp)) hfuel
        obtain ⟨hinv1, htemp1, _, _, _⟩ :=
          visit_sound r root fuel d st st1 hinv (hreach d (by simp)) hst1
        have hnum1 : numAvail r st1 = numAvail r st := by
          unfold numAvail
          rw [htemp1]
        obtain ⟨st2, hst2⟩ := ihd st1 hinv1 (fun x hx => hreach x (by simp [hx]))
          (fun t ht d' hd' => htg t (htemp1 ▸ ht) d' (by simp [hd'])) (hnum1 ▸ hfuel)
        refine ⟨st2, ?_⟩
        unfold foldVisit
        rw [hst1]
        exact hst2
    intro id st hinv hreach htg hfuel
    by_cases hvis : id ∈ st.visited
    · refine ⟨st, ?_⟩
      unfold visit_dependency
      rw [if_pos hvis]
    · by_cases htmp : id ∈ st.temp_mark
      · exact absurd ⟨id, hreach, htg id htmp⟩ hacyc
      · have hregid : Registered r id := hreg id hreach
        obtain ⟨manifest, hman⟩ := Option.isSome_iff_exists.mp hregid
        have hdeps_eq : depsOf r id = depKeys manifest := by
          unfold depsOf
          rw [hman]
        have hdepsreach : ∀ d ∈ depKeys manifest, Reaches r root d := by
          intro d hd
          refine Relation.ReflTransGen.tail hreach ?_
          show Edge r id d
          unfold Edge
          rw [hdeps_eq]
          exact hd
        have hinv1 : DfsInv r root { st with temp_mark := id :: st.temp_mark } := by
          refine ⟨List.nodup_cons.mpr ⟨htmp, hinv.temp_nodup⟩, hinv.order_nodup,
            hinv.vis_order, hinv.vis_reach, ?_, ?_, hinv.closed, hinv.topo⟩
          · intro x hx
            rcases List.mem_cons.mp hx with hx' | hx'
            · exact hx' ▸ hreach
            · exact hinv.temp_reach x hx'
          · intro x hx
            rcases List.mem_cons.mp hx with hx' | hx'
            · exact hx' ▸ hvis
            · exact hinv.disj x hx'
        have htg1 : ∀ t ∈ ({ st with temp_mark := id :: st.temp_mark } : VisitState).temp_mark,
            ∀ d ∈ depKeys manifest, Relation.TransGen (Edge r) t d := by
          intro t ht d hd
          have hedge : Edge r id d := by
            unfold Edge
            rw [hdeps_eq]
            exact hd
          rcases List.mem_cons.mp ht with ht' | ht'
          · exact ht' ▸ Relation.TransGen.single hedge
          · exact Relation.TransGen.tail (htg t ht') hedge
        have hnumlt : numAvail r { st with temp_mark := id :: st.temp_mark } < fuel := by
          have := numAvail_insert_lt hregid htmp
          omega
        obtain ⟨st2, hst2⟩ := hfold (depKeys manifest)
          { st with temp_mark := id :: st.temp_mark } hinv1 hdepsreach htg1 hnumlt
        refine
          ⟨{ order := st2.order ++ [id], visited := id :: st2.visited,
             temp_mark := st2.temp_mark.erase id }, ?_⟩
        unfold visit_dependency
        rw [if_neg hvis, if_neg htmp, hman]
        dsimp only
        rw [hst2]

end PluginManager

namespace PluginManager

/-- With full registration and enough fuel, a visit of a reachable node
returns either success or the circular-dependency error — never fuel
exhaustion and never a not-found error. -/
theorem visit_characterize (r : ManifestRegistry) (root : Str)
    (hreg : FullyRegistered r root) :
    ∀ (fuel : Nat) (id : Str) (st : VisitState),
      DfsInv r root st → Reaches r root id →
      numAvail r st < fuel →
      (∃ st', visit_dependency r fuel id st = some (.ok st')) ∨
      (∃ msg, visit_dependency r fuel id st = some (.error (.dependencyError msg))) := by
  intro fuel
  induction fuel with
  | zero =>
    intro id st _ _ hlt
    omega
  | succ fuel ih =>
    have hfold : ∀ (deps : List Str) (st : VisitState),
        DfsInv r root st → (∀ d ∈ deps, Reaches r root d) →
        numAvail r st < fuel →
        (∃ st', foldVisit (visit_dependency r fuel) deps st = some (.ok st')) ∨
        (∃ msg, foldVisit (visit_dependency r fuel) deps st
          = some (.error (.dependencyError msg))) := by
      intro deps
      induction deps with
      | nil =>
        intro st _ _ _
        exact Or.inl ⟨st, rfl⟩
      | cons d ds ihd =>
        intro st hinv hreach hfuel
        rcases ih d st hinv (hreach d (by simp)) hfuel with ⟨st1, hst1⟩ | ⟨msg, hst1⟩
        · obtain ⟨hinv1, htemp1, _, _, _⟩ :=
            visit_sound r root fuel d st st1 hinv (hreach d (by simp)) hst1
          have hnum1 : numAvail r st1 = numAvail r st := by
            unfold numAvail
            rw [htemp1]
          rcases ihd st1 hinv1 (fun x hx => hreach x (by simp [hx])) (hnum1 ▸ hfuel) with
            ⟨st2, hst2⟩ | ⟨msg, hst2⟩
          · refine Or.inl ⟨st2, ?_⟩
            unfold foldVisit
            rw [hst1]
            exact hst2
          · refine Or.inr ⟨msg, ?_⟩
            unfold foldVisit
            rw [hst1]
            exact hst2
        · refine Or.inr ⟨msg, ?_⟩
          unfold foldVisit
          rw [hst1]
    intro id st hinv hreach hfuel
    by_cases hvis : id ∈ st.visited
    · refine Or.inl ⟨st, ?_⟩
      unfold visit_dependency
      rw [if_pos hvis]
    · by_cases htmp : id ∈ st.temp_mark
      · refine Or.inr ⟨"Circular dependency detected".toList, ?_⟩
        unfold visit_dependency
        rw [if_neg hvis, if_pos htmp]
      · have hregid : Registered r id := hreg id hreach
        obtain ⟨manifest, hman⟩ := Option.isSome_iff_exists.mp hregid
        have hdeps_eq : depsOf r id = depKeys manifest := by
          unfold depsOf
          rw [hman]
        have hdepsreach : ∀ d ∈ depKeys manifest, Reaches r root d := by
          intro d hd
          refine Relation.ReflTransGen.tail hreach ?_
          show Edge r id d
          unfold Edge
          rw [hdeps_eq]
          exact hd
        have hinv1 : DfsInv r root { st with temp_mark := id :: st.temp_mark } := by
          refine ⟨List.nodup_cons.mpr ⟨htmp, hinv.temp_nodup⟩, hinv.order_nodup,
            hinv.vis_order, hinv.vis_reach, ?_, ?_, hinv.closed, hinv.topo⟩
          · intro x hx
            rcases List.mem_cons.mp hx with hx' | hx'
            · exact hx' ▸ hreach
            · exact hinv.temp_reach x hx'
          · intro x hx
            rcases List.mem_cons.mp hx with hx' | hx'
            · exact hx' ▸ hvis
            · exact hinv.disj x hx'
        have hnumlt : numAvail r { st with temp_mark := id :: st.temp_mark } < fuel := by
          have := numAvail_insert_lt hregid htmp
          omega
        rcases hfold (depKeys manifest) { st with temp_mark := id :: st.temp_mark }
            hinv1 hdepsreach hnumlt with ⟨st2, hst2⟩ | ⟨msg, hst2⟩
        · refine
            Or.inl ⟨{ order := st2.order ++ [id], visited := id :: st2.visited,
                      temp_mark := st2.temp_mark.erase id }, ?_⟩
          unfold visit_dependency
          rw [if_neg hvis, if_neg htmp, hman]
          dsimp only
          rw [hst2]
        · refine Or.inr ⟨msg, ?_⟩
          unfold visit_dependency
          rw [if_neg hvis, if_neg htmp, hman]
          dsimp only
          rw [hst2]

end PluginManager

namespace PluginManager

/-- A dependency-closed visited set containing the root contains every
reachable node. -/
theorem reachable_in_closed {r : ManifestRegistry} {root : Str} {st : VisitState}
    (hroot : root ∈ st.visited)
    (hcl : ∀ x ∈ st.visited, ∀ d ∈ depsOf r x, d ∈ st.visited) :
    ∀ x, Reaches r root x → x ∈ st.visited := by
  intro x hx
  induction hx with
  | refl => exact hroot
  | tail _ hedge ihx => exact hcl _ ihx _ hedge

/-- Along a topologically sorted order, positions strictly decrease along
nonempty dependency paths. -/
theorem transGen_pos_lt {r : ManifestRegistry} {order : List Str}
    (htopo : ∀ a ∈ order, ∀ d ∈ depsOf r a, d ∈ order ∧ posOf order d < posOf order a) :
    ∀ x y, Relation.TransGen (Edge r) x y → x ∈ order →
      y ∈ order ∧ posOf order y < posOf order x := by
  intro x y h
  induction h with
  | single hedge => intro hx; exact htopo _ hx _ hedge
  | tail _ hedge ihy =>
    intro hx
    obtain ⟨hy, hlt⟩ := ihy hx
    obtain ⟨hz, hlt2⟩ := htopo _ hy _ hedge
    exact ⟨hz, lt_trans hlt2 hlt⟩

end PluginManager

/-- C6: for a root whose reachable dependency subgraph is fully
registered, `resolve_dependencies` returns an order listing each
reachable plugin exactly once with dependencies before dependents exactly
when the reachable subgraph is acyclic; a reachable cycle yields a
DependencyError. -/
theorem c6_resolve_dependencies_topological :
    ∀ (r : ManifestRegistry) (root : Str),
      PluginManager.FullyRegistered r root →
      (¬ PluginManager.HasCycle r root →
        ∃ order, PluginManager.resolve_dependencies r root = .ok order ∧
          order.Nodup ∧
          (∀ x, x ∈ order ↔ PluginManager.Reaches r root x) ∧
          (∀ a ∈ order, ∀ d ∈ PluginManager.depsOf r a,
            PluginManager.posOf order d < PluginManager.posOf order a)) ∧
      (∀ order, PluginManager.resolve_dependencies r root = .ok order →
        ¬ PluginManager.HasCycle r root) ∧
      (PluginManager.HasCycle r root →
        ∃ msg, PluginManager.resolve_dependencies r root
          = .error (.dependencyError msg)) := by
  intro r root hreg
  have hregroot : PluginManager.Registered r root := hreg root Relation.ReflTransGen.refl
  obtain ⟨mroot, hmroot⟩ := Option.isSome_iff_exists.mp hregroot
  have hfuel : PluginManager.numAvail r ⟨[], [], []⟩ < r.length + 1 := by
    unfold PluginManager.numAvail
    have h1 := List.toFinset_card_le (PluginManager.allIds r)
    have h2 : (PluginManager.allIds r).length = r.length := List.length_map r _
    simp only [List.toFinset_nil, Finset.sdiff_empty]
    omega
  have hok_props : ∀ st',
      PluginManager.visit_dependency r (r.length + 1) root ⟨[], [], []⟩ = some (.ok st') →
      st'.order.Nodup ∧
      (∀ x, x ∈ st'.order ↔ PluginManager.Reaches r root x) ∧
      (∀ a ∈ st'.order, ∀ d ∈ PluginManager.depsOf r a,
        PluginManager.posOf st'.order d < PluginManager.posOf st'.order a) ∧
      ¬ PluginManager.HasCycle r root := by
    intro st' hst'
    obtain ⟨hinv', _, _, _, hrootvis⟩ :=
      PluginManager.visit_sound r root (r.length + 1) root ⟨[], [], []⟩ st'
        (PluginManager.DfsInv.initial r root) Relation.ReflTransGen.refl hst'
    have hmem : ∀ x, x ∈ st'.order ↔ PluginManager.Reaches r root x := by
      intro x
      constructor
      · intro hx
        exact hinv'.vis_reach x ((hinv'.vis_order x).mpr hx)
      · intro hx
        exact (hinv'.vis_order x).mp
          (PluginManager.reachable_in_closed hrootvis hinv'.closed x hx)
    have hnocycle : ¬ PluginManager.HasCycle r root := by
      rintro ⟨x, hxr, hcyc⟩
      have hx : x ∈ st'.order := (hmem x).mpr hxr
      have hlt := (PluginManager.transGen_pos_lt hinv'.topo x x hcyc hx).2
      omega
    exact ⟨hinv'.order_nodup, hmem,
      fun a ha d hd => (hinv'.topo a ha d hd).2, hnocycle⟩
  refine ⟨?_, ?_, ?_⟩
  · intro hacyc
    obtain ⟨st', hst'⟩ := PluginManager.visit_complete r root hreg hacyc (r.length + 1)
      root ⟨[], [], []⟩ (PluginManager.DfsInv.initial r root) Relation.ReflTransGen.refl
      (by intro t ht; cases ht) hfuel
    obtain ⟨hnd, hmem, htopo, _⟩ := hok_props st' hst'
    refine ⟨st'.order, ?_, hnd, hmem, htopo⟩
    unfold PluginManager.resolve_dependencies
    rw [hmroot]
    dsimp only
    rw [hst']
  · intro order hordeq
    unfold PluginManager.resolve_dependencies at hordeq
    rw [hmroot] at hordeq
    dsimp only at hordeq
    cases hv : PluginManager.visit_dependency r (r.length + 1) root ⟨[], [], []⟩ with
    | none =>
      rw [hv] at hordeq
      exact absurd hordeq (by simp)
    | some res =>
      rw [hv] at hordeq
      cases res with
      | error e => exact absurd hordeq (by simp)
      | ok st' => exact (hok_props st' hv).2.2.2
  · intro hcyc
    rcases PluginManager.visit_characterize r root hreg (r.length + 1) root ⟨[], [], []⟩
        (PluginManager.DfsInv.initial r root) Relation.ReflTransGen.refl hfuel with
      ⟨st', hst'⟩ | ⟨msg, hst'⟩
    · exact absurd hcyc (hok_props st' hst').2.2.2
    · refine ⟨msg, ?_⟩
      unfold PluginManager.resolve_dependencies
      rw [hmroot]
      dsimp only
      rw [hst']

/-- Manifest of the demo plugin `B` (no dependencies). -/
def demoManifestB : PluginManifest :=
  { manifest_version := "1.0.0".toList, name := "B".toList, display_name := "B".toList,
    version := "1.0.0".toList, description := "d".toList, author := "a".toList,
    plugin_type := "synchronous".toList, main := "index.js".toList,
    activation_events := [], permissions := [],
    contributes := { commands := [], views := [], events := [], keybindings := [] },
    engines := [], dependencies := [] }

/-- Manifest of the demo plugin `A` (depends on `B`). -/
def demoManifestA : PluginManifest :=
  { demoManifestB with
    name := "A".toList,
    display_name := "A".toList,
    dependencies := [("B".toList, "1.0.0".toList)] }

/-- Two-plugin demo registry: `A` depends on `B`. -/
def demoRegistry : ManifestRegistry :=
  [("A".toList, demoManifestA), ("B".toList, demoManifestB)]

/-- Every edge of the demo registry goes from `A` to `B`. -/
theorem demoEdge : ∀ a b, PluginManager.Edge demoRegistry a b →
    a = "A".toList ∧ b = "B".toList := by
  intro a b h
  by_cases ha : a = "A".toList
  · subst ha
    have hd : PluginManager.depsOf demoRegistry "A".toList = ["B".toList] := rfl
    unfold PluginManager.Edge at h
    rw [hd] at h
    exact ⟨rfl, by simpa using h⟩
  · by_cases hb : a = "B".toList
    · subst hb
      have hd : PluginManager.depsOf demoRegistry "B".toList = [] := rfl
      unfold PluginManager.Edge at h
      rw [hd] at h
      cases h
    · have hnone : demoRegistry.get_manifest a = none := by
        unfold ManifestRegistry.get_manifest demoRegistry
        rw [List.find?_cons_of_neg _ (by simpa using fun hx => ha hx.symm),
          List.find?_cons_of_neg _ (by simpa using fun hx => hb hx.symm), List.find?_nil]
        rfl
      unfold PluginManager.Edge PluginManager.depsOf at h
      rw [hnone] at h
      cases h

/-- In the demo registry nothing is reachable from `B` but `B` itself. -/
theorem demoReachB : ∀ x, PluginManager.Reaches demoRegistry "B".toList x →
    x = "B".toList := by
  intro x hx
  induction hx with
  | refl => rfl
  | tail _ hedge ih =>
    obtain ⟨hb, _⟩ := demoEdge _ _ hedge
    exact absurd (ih ▸ hb) (by decide)

/-- From `A` exactly `A` and `B` are reachable. -/
theorem demoReachA : ∀ x, PluginManager.Reaches demoRegistry "A".toList x →
    x = "A".toList ∨ x = "B".toList := by
  intro x hx
  induction hx with
  | refl => exact Or.inl rfl
  | tail _ hedge _ => exact Or.inr (demoEdge _ _ hedge).2

/-- The reachable subgraph of the demo registry is fully registered. -/
theorem demoFullyReg : PluginManager.FullyRegistered demoRegistry "A".toList := by
  intro x hx
  rcases demoReachA x hx with rfl | rfl
  · exact rfl
  · exact rfl

/-- The demo registry has no reachable cycle. -/
theorem demoAcyc : ¬ PluginManager.HasCycle demoRegistry "A".toList := by
  rintro ⟨x, _, hcyc⟩
  cases hcyc with
  | single hedge =>
    obtain ⟨hxa, hxb⟩ := demoEdge _ _ hedge
    exact absurd (hxa ▸ hxb) (by decide)
  | tail h hedge =>
    obtain ⟨hba, hxb⟩ := demoEdge _ _ hedge
    subst hxb
    rw [hba] at h
    have := demoReachB _ (Relation.TransGen.to_reflTransGen h)
    exact absurd this (by decide)

/-- C6 witness: on the demo registry the resolver returns `[B, A]`, and
the main theorem applied at this registry yields the topological-order
guarantees. -/
theorem c6_resolve_dependencies_topological_witness :
    PluginManager.resolve_dependencies demoRegistry "A".toList
      = .ok ["B".toList, "A".toList] ∧
    (∃ order, PluginManager.resolve_dependencies demoRegistry "A".toList = .ok order ∧
      order.Nodup ∧
      (∀ x, x ∈ order ↔ PluginManager.Reaches demoRegistry "A".toList x) ∧
      (∀ a ∈ order, ∀ d ∈ PluginManager.depsOf demoRegistry a,
        PluginManager.posOf order d < PluginManager.posOf order a)) := by
  constructor
  · rfl
  · exact (c6_resolve_dependencies_topological demoRegistry "A".toList demoFullyReg).1
      demoAcyc
